import Mathlib

/-!
Verification of the mangataro scanlator-tracking core against its
natural-language specification.

The definitions below are a shallow embedding of the Python source:

* `src/scanlators/asura_scans.py` — chapter-number parsing
  (`AsuraScans.parsear_numero_capitulo`), date parsing
  (`AsuraScans._parse_date`) and the chapter sort in
  `AsuraScans.obtener_capitulos`;
* `src/scanlators/raven_scans.py` — `RavenScans.parsear_numero_capitulo`
  and the chapter sort in `RavenScans.obtener_capitulos`;
* `src/api/services/tracker_service.py` — the tracking-job orchestration
  (`TrackerService._run_tracking_job`, `TrackerService._process_mapping`,
  `TrackerService.get_job_status`, `TrackerService.list_jobs`).

Machine reals (Python `float`) are modelled by `ℚ`: every chapter-number
string the parsers emit has the shape `digits(.digits)?`, on which the
float interpretation is exact and order-isomorphic to the rational value.
Timestamps (`datetime`) are modelled by `Int` values; `datetime.now()`
becomes an explicit `now : Int` parameter.  Character classes (`\d`,
`\s`, `str.lower`, `str.strip`) are modelled at ASCII precision, which
covers every string the claims and the adapters manipulate.
-/

namespace Mangataro

/-! ### ASCII character helpers (models of Python character classes) -/

/-- Model of the regex class `\d` (ASCII digits). -/
def isDigitC (c : Char) : Bool :=
  '0' ≤ c && c ≤ '9'

/-- Model of Python `str.strip` and the regex class `\s` whitespace set:
space, tab, newline, carriage return, vertical tab, form feed. -/
def isSpaceC (c : Char) : Bool :=
  c = ' ' || c = '\t' || c = '\n' || c = '\x0d' || c = '\x0b' || c = '\x0c'

/-- Model of Python `str.lower` on one character (ASCII range). -/
def lowerChar (c : Char) : Char :=
  if 'A' ≤ c && c ≤ 'Z' then Char.ofNat (c.toNat + 32) else c

/-- Model of Python `str.lower` on a string, as a character list. -/
def lowerL (l : List Char) : List Char :=
  l.map lowerChar

/-- Drop trailing characters satisfying `p` (right half of `str.strip`). -/
def dropTrail (p : Char → Bool) (l : List Char) : List Char :=
  (l.reverse.dropWhile p).reverse

/-- Model of Python `str.strip()` on a character list. -/
def pyStrip (l : List Char) : List Char :=
  dropTrail isSpaceC (l.dropWhile isSpaceC)

/-- Whether `n` occurs at the start of `hay` (list equality on the head
segment). -/
def headMatches : List Char → List Char → Bool
  | [], _ => true
  | _ :: _, [] => false
  | n :: ns, h :: hs => n = h && headMatches ns hs

/-- Model of the Python substring test `needle in hay` for strings. -/
def hasSub (needle : List Char) : List Char → Bool
  | [] => headMatches needle []
  | c :: cs => headMatches needle (c :: cs) || hasSub needle cs

/-- Numeric value of a list of ASCII digit characters, as produced by
Python `int` on the digit group of a regex match. -/
def natOfDigits (l : List Char) : Nat :=
  l.foldl (fun n c => 10 * n + (c.toNat - 48)) 0

/-! ### First numeric token: the regex search `(\d+(?:\.\d+)?)`

`firstNum l` returns the leftmost maximal match of `\d+(\.\d+)?` in `l`,
or `none` when `l` contains no digit — exactly what
`re.search(r'(\d+(?:\.\d+)?)', ...)` yields (group 1). -/

/-- Match `\d+(\.\d+)?` anchored at the head of `l` (the match exists
exactly when the head is a digit, i.e. when the digit run is
nonempty); returns the matched characters. -/
def numTokenAt (l : List Char) : Option (List Char) :=
  let ds := l.takeWhile isDigitC
  if ds = [] then none
  else
    match l.dropWhile isDigitC with
    | '.' :: r2 =>
      let fs := r2.takeWhile isDigitC
      if fs = [] then some ds else some (ds ++ '.' :: fs)
    | _ => some ds

/-- Leftmost match of `\d+(\.\d+)?` in `l`, the model of
`re.search(r'(\d+(?:\.\d+)?)', l)`. -/
def firstNum : List Char → Option (List Char)
  | [] => none
  | c :: cs =>
    match numTokenAt (c :: cs) with
    | some t => some t
    | none => firstNum cs

/-- Anchored match of `^(\d+(?:\.\d+)?)`, the model of
`re.search(r"^(\d+(?:\.\d+)?)", l)`. -/
def numAtStart (l : List Char) : Option (List Char) :=
  numTokenAt l

/-! ### AsuraScans.parsear_numero_capitulo -/

/-- The mojibake character `Ã` (byte pair C3 83 in the source file of
`asura_scans.py`). -/
def mojA : Char := Char.ofNat 0xC3

/-- The mojibake character U+00AD (byte pair C2 AD in the source file of
`asura_scans.py`). -/
def mojSoft : Char := Char.ofNat 0xAD

/-- Try the alternation
`(chapter|ch\.?|episode|ep\.?|cap\.?|capÃ­tulo)` of
`AsuraScans.parsear_numero_capitulo` at the head of `l`, in regex
alternation order with greedy `\.?`; returns the remainder after the
matched token.  The last alternative reproduces the mojibake bytes
present in the source file. -/
def asuraAltAt (l : List Char) : Option (List Char) :=
  if headMatches "chapter".toList l then some (l.drop 7)
  else if headMatches "ch.".toList l then some (l.drop 3)
  else if headMatches "ch".toList l then some (l.drop 2)
  else if headMatches "episode".toList l then some (l.drop 7)
  else if headMatches "ep.".toList l then some (l.drop 3)
  else if headMatches "ep".toList l then some (l.drop 2)
  else if headMatches "cap.".toList l then some (l.drop 4)
  else if headMatches "cap".toList l then some (l.drop 3)
  else if headMatches ('c' :: 'a' :: 'p' :: mojA :: mojSoft :: "tulo".toList) l then
    some (l.drop 9)
  else none

/-- Model of
`re.sub(r'^(chapter|ch\.?|episode|ep\.?|cap\.?|capÃ­tulo)\s*', '', texto_lower)`:
anchored at the string start, so at most one removal, followed by `\s*`. -/
def asuraStripHead (l : List Char) : List Char :=
  match asuraAltAt l with
  | some rest => rest.dropWhile isSpaceC
  | none => l

/-- Embedding of `AsuraScans.parsear_numero_capitulo` (src/scanlators/
asura_scans.py, lines 245-285): lower-case; any text containing "first"
returns "1"; otherwise strip one leading prefix token and return the
first `digits(.digits)?` token, or "0" when none exists. -/
def asuraParsearNumeroCapitulo (texto : String) : String :=
  let textoLower := lowerL texto.toList
  if hasSub "first".toList textoLower then "1"
  else
    let textoClean := asuraStripHead textoLower
    match firstNum textoClean with
    | some t => String.mk t
    | none => "0"

/-! ### RavenScans.parsear_numero_capitulo -/

/-- Try the alternation `(chapter|ch\.?|cap\.?)` of
`RavenScans.parsear_numero_capitulo` at the head of `l`, case
insensitively (the Python sub uses `re.IGNORECASE`); returns the
remainder after the matched token. -/
def ravenAltAt (l : List Char) : Option (List Char) :=
  let low := lowerL l
  if headMatches "chapter".toList low then some (l.drop 7)
  else if headMatches "ch.".toList low then some (l.drop 3)
  else if headMatches "ch".toList low then some (l.drop 2)
  else if headMatches "cap.".toList low then some (l.drop 4)
  else if headMatches "cap".toList low then some (l.drop 3)
  else none

/-- One step of the global sub: match the alternation at the head and
then consume `[\s:]*`. -/
def ravenStepAt (l : List Char) : Option (List Char) :=
  match ravenAltAt l with
  | some rest => some (rest.dropWhile (fun c => isSpaceC c || c = ':'))
  | none => none

/-- Recursion core of `ravenSub`; the fuel argument (always at least the
length of the list, which strictly decreases at every step) only serves
termination. -/
def ravenSubAux : Nat → List Char → List Char
  | 0, l => l
  | _ + 1, [] => []
  | fuel + 1, c :: cs =>
    match ravenStepAt (c :: cs) with
    | some rest => ravenSubAux fuel rest
    | none => c :: ravenSubAux fuel cs

/-- Model of
`re.sub(r"(chapter|ch\.?|cap\.?)[\s:]*", "", texto, flags=re.IGNORECASE)`:
a global, unanchored substitution scanning left to right. -/
def ravenSub (l : List Char) : List Char :=
  ravenSubAux l.length l

/-- Embedding of `RavenScans.parsear_numero_capitulo` (src/scanlators/
raven_scans.py, lines 158-179): globally remove prefix tokens, then try
an anchored numeric match on the stripped text, then an unanchored one,
and fall back to "0". -/
def ravenParsearNumeroCapitulo (texto : String) : String :=
  let t := ravenSub texto.toList
  match numAtStart (pyStrip t) with
  | some m => String.mk m
  | none =>
    match firstNum t with
    | some m => String.mk m
    | none => "0"

/-! ### AsuraScans._parse_date

Embedding of `AsuraScans._parse_date` (src/scanlators/asura_scans.py,
lines 287-360).  `datetime.now()` is the explicit parameter `now : Int`
(seconds); relative results are offsets from `now`; absolute dates are
encoded as seconds counted from 0001-01-01 (no claim compares absolute
with relative values). -/

/-- Seconds per unit for the relative-date rule of `_parse_date`: the
regex units second, minute, hour, day, week, and the approximations
month = 30 days and year = 365 days taken from the code. -/
def agoUnitTable : List (List Char × Int) :=
  [("second".toList, 1), ("minute".toList, 60), ("hour".toList, 3600),
   ("day".toList, 86400), ("week".toList, 604800),
   ("month".toList, 2592000), ("year".toList, 31536000)]

/-- Match one unit word of the alternation
`(second|minute|hour|day|week|month|year)` at the head of `l` (no word
of the alternation is a prefix of another, so at most one matches). -/
def unitAt (l : List Char) : Option (Int × List Char) :=
  match agoUnitTable.find? (fun p => headMatches p.1 l) with
  | some (w, secs) => some (secs, l.drop w.length)
  | none => none

/-- Match `\s+ago` at the head of `l` (the pattern is a search, so text
may follow "ago"). -/
def spaceAgo (l : List Char) : Bool :=
  decide (l.takeWhile isSpaceC ≠ []) &&
    headMatches "ago".toList (l.dropWhile isSpaceC)

/-- Match `s?\s+ago` at the head of `l`, with the greedy optional `s`
backtracking when the rest of the pattern fails after consuming it. -/
def tailAfterUnit (l : List Char) : Bool :=
  match l with
  | 's' :: l2 => spaceAgo l2 || spaceAgo l
  | _ => spaceAgo l

/-- Match `(\d+)\s+(second|minute|hour|day|week|month|year)s?\s+ago`
anchored at the head of `l` (the match exists exactly when the digit run
at the head is nonempty); on success, return the code's value
`now - amount * unit` (a shorter-than-maximal digit run can never be
followed by `\s+`, so only the maximal run is tried). -/
def tryAgoAt (now : Int) (l : List Char) : Option Int :=
  let ds := l.takeWhile isDigitC
  if ds = [] then none
  else
    let r1 := l.dropWhile isDigitC
    if r1.takeWhile isSpaceC = [] then none
    else
      match unitAt (r1.dropWhile isSpaceC) with
      | some (secs, r3) =>
        if tailAfterUnit r3 then some (now - (natOfDigits ds : Int) * secs) else none
      | none => none

/-- Leftmost-match search for the relative-date regex, the model of
`re.search(r'(\d+)\s+(second|...|year)s?\s+ago', fecha_texto)`. -/
def agoSearch (now : Int) : List Char → Option Int
  | [] => none
  | c :: cs =>
    match tryAgoAt now (c :: cs) with
    | some v => some v
    | none => agoSearch now cs

/-- The seven time units of the relative-date rule. -/
inductive AgoUnit where
  | second
  | minute
  | hour
  | day
  | week
  | month
  | year
deriving DecidableEq, Repr

/-- The unit word as written in the regex alternation. -/
def agoUnitWord : AgoUnit → List Char
  | .second => "second".toList
  | .minute => "minute".toList
  | .hour => "hour".toList
  | .day => "day".toList
  | .week => "week".toList
  | .month => "month".toList
  | .year => "year".toList

/-- Seconds per unit as computed by the code's timedelta arithmetic
(month approximated as 30 days, year as 365 days). -/
def agoUnitSeconds : AgoUnit → Int
  | .second => 1
  | .minute => 60
  | .hour => 3600
  | .day => 86400
  | .week => 604800
  | .month => 2592000
  | .year => 31536000

/-- The relative-date input shape of the claim: `<N> <unit> ago` with
the amount given by its decimal digit string. -/
def mkRelativeInput (ds : List Char) (u : AgoUnit) : String :=
  String.mk (ds ++ ' ' :: (agoUnitWord u ++ ' ' :: "ago".toList))

/-- Leap-year predicate of the Gregorian calendar, as validated by
`datetime`. -/
def isLeap (y : Nat) : Bool :=
  y % 4 = 0 && (y % 100 ≠ 0 || y % 400 = 0)

/-- Number of days of month `m` in year `y` (used by `datetime`'s
validation of a parsed date). -/
def daysInMonth (y m : Nat) : Nat :=
  if m = 2 then (if isLeap y then 29 else 28)
  else if m = 4 || m = 6 || m = 9 || m = 11 then 30
  else 31

/-- Cumulative days before month `m` in a non-leap year. -/
def cumDaysBefore (m : Nat) : Nat :=
  [0, 0, 31, 59, 90, 120, 151, 181, 212, 243, 273, 304, 334].getD m 0

/-- Seconds from 0001-01-01 to the given (valid) civil date: the `Int`
encoding used for the absolute dates `strptime` produces. -/
def civilSeconds (y m d : Nat) : Int :=
  let yp := y - 1
  let days := yp * 365 + yp / 4 - yp / 100 + yp / 400
    + cumDaysBefore m + (if 2 < m && isLeap y then 1 else 0) + (d - 1)
  (days : Int) * 86400

/-- Lower-cased month-name table for `%b` (strptime abbreviated month
names; the input has already been lower-cased by the caller, and
strptime matches case-insensitively). -/
def monthAbbrTable : List (List Char × Nat) :=
  [("jan".toList, 1), ("feb".toList, 2), ("mar".toList, 3), ("apr".toList, 4),
   ("may".toList, 5), ("jun".toList, 6), ("jul".toList, 7), ("aug".toList, 8),
   ("sep".toList, 9), ("oct".toList, 10), ("nov".toList, 11), ("dec".toList, 12)]

/-- Lower-cased month-name table for `%B`, in the longest-first order
strptime builds its alternation with. -/
def monthFullTable : List (List Char × Nat) :=
  [("september".toList, 9), ("february".toList, 2), ("november".toList, 11),
   ("december".toList, 12), ("january".toList, 1), ("october".toList, 10),
   ("august".toList, 8), ("march".toList, 3), ("april".toList, 4),
   ("june".toList, 6), ("july".toList, 7), ("may".toList, 5)]

/-- Match a month name from `tbl` at the head of `l`. -/
def monthNameAt (tbl : List (List Char × Nat)) (l : List Char) :
    Option (Nat × List Char) :=
  match tbl.find? (fun p => headMatches p.1 l) with
  | some (w, n) => some (n, l.drop w.length)
  | none => none

/-- Candidates (in alternation order) for strptime's `%d` pattern
`(3[01]|[12]\d|0[1-9]|[1-9])`; later parsing failure backtracks to the
next candidate. -/
def dayCands (l : List Char) : List (Nat × List Char) :=
  (match l with
   | c1 :: c2 :: r =>
     (if c1 = '3' && (c2 = '0' || c2 = '1') then [(natOfDigits [c1, c2], r)] else []) ++
     (if (c1 = '1' || c1 = '2') && isDigitC c2 then [(natOfDigits [c1, c2], r)] else []) ++
     (if c1 = '0' && ('1' ≤ c2 && c2 ≤ '9') then [(natOfDigits [c1, c2], r)] else [])
   | _ => []) ++
  (match l with
   | c1 :: r => if '1' ≤ c1 && c1 ≤ '9' then [(natOfDigits [c1], r)] else []
   | _ => [])

/-- Candidates (in alternation order) for strptime's `%m` pattern
`(1[0-2]|0[1-9]|[1-9])`. -/
def monthCands (l : List Char) : List (Nat × List Char) :=
  (match l with
   | c1 :: c2 :: r =>
     (if c1 = '1' && ('0' ≤ c2 && c2 ≤ '2') then [(natOfDigits [c1, c2], r)] else []) ++
     (if c1 = '0' && ('1' ≤ c2 && c2 ≤ '9') then [(natOfDigits [c1, c2], r)] else [])
   | _ => []) ++
  (match l with
   | c1 :: r => if '1' ≤ c1 && c1 ≤ '9' then [(natOfDigits [c1], r)] else []
   | _ => [])

/-- Match strptime's `%Y` pattern (exactly four digits). -/
def year4At (l : List Char) : Option (Nat × List Char) :=
  match l with
  | a :: b :: c :: d :: r =>
    if isDigitC a && isDigitC b && isDigitC c && isDigitC d then
      some (natOfDigits [a, b, c, d], r)
    else none
  | _ => none

/-- Match `\s+` (strptime replaces literal whitespace in the format by
`\s+`). -/
def wsPlus (l : List Char) : Option (List Char) :=
  match l with
  | c :: _ => if isSpaceC c then some (l.dropWhile isSpaceC) else none
  | _ => none

/-- Validation performed by the `datetime(year, month, day)` constructor
strptime ends with: year at least MINYEAR = 1, month and day in range. -/
def validDate (y m d : Nat) : Bool :=
  1 ≤ y && 1 ≤ m && m ≤ 12 && 1 ≤ d && d ≤ daysInMonth y m

/-- Build the result of a successful strptime: validate the civil date
(an out-of-range day raises ValueError, which the caller treats as
format failure) and convert. -/
def finishDate (y m d : Nat) (rest : List Char) : Option Int :=
  if rest = [] && validDate y m d then some (civilSeconds y m d) else none

/-- Return the first successful continuation over a candidate list (the
backtracking order of a regex alternation). -/
def firstHit (cands : List (Nat × List Char)) (k : Nat → List Char → Option Int) :
    Option Int :=
  match cands with
  | [] => none
  | (n, r) :: rest =>
    match k n r with
    | some v => some v
    | none => firstHit rest k

/-- Model of `datetime.strptime(l, "%b %d, %Y")` resp. `"%B %d, %Y"`
(month-name table passed in), on already lower-cased input; strptime
requires the whole string to be consumed. -/
def strptimeMonthName (tbl : List (List Char × Nat)) (l : List Char) : Option Int :=
  match monthNameAt tbl l with
  | none => none
  | some (m, r1) =>
    match wsPlus r1 with
    | none => none
    | some r2 =>
      firstHit (dayCands r2) (fun d r3 =>
        match r3 with
        | ',' :: r4 =>
          match wsPlus r4 with
          | none => none
          | some r5 =>
            match year4At r5 with
            | some (y, r6) => finishDate y m d r6
            | none => none
        | _ => none)

/-- Model of `datetime.strptime(l, "%Y-%m-%d")`. -/
def strptimeIso (l : List Char) : Option Int :=
  match year4At l with
  | none => none
  | some (y, r1) =>
    match r1 with
    | '-' :: r2 =>
      firstHit (monthCands r2) (fun m r3 =>
        match r3 with
        | '-' :: r4 =>
          firstHit (dayCands r4) (fun d r5 => finishDate y m d r5)
        | _ => none)
    | _ => none

/-- Model of `datetime.strptime(l, "%d/%m/%Y")`. -/
def strptimeDmy (l : List Char) : Option Int :=
  firstHit (dayCands l) (fun d r1 =>
    match r1 with
    | '/' :: r2 =>
      firstHit (monthCands r2) (fun m r3 =>
        match r3 with
        | '/' :: r4 =>
          match year4At r4 with
          | some (y, r5) => finishDate y m d r5
          | none => none
        | _ => none)
    | _ => none)

/-- Model of `datetime.strptime(l, "%m/%d/%Y")`. -/
def strptimeMdy (l : List Char) : Option Int :=
  firstHit (monthCands l) (fun m r1 =>
    match r1 with
    | '/' :: r2 =>
      firstHit (dayCands r2) (fun d r3 =>
        match r3 with
        | '/' :: r4 =>
          match year4At r4 with
          | some (y, r5) => finishDate y m d r5
          | none => none
        | _ => none)
    | _ => none)

/-- The `date_formats` loop of `_parse_date`: the five formats tried in
order, first success wins. -/
def strptimeFormats (l : List Char) : Option Int :=
  match strptimeMonthName monthAbbrTable l with
  | some v => some v
  | none =>
    match strptimeMonthName monthFullTable l with
    | some v => some v
    | none =>
      match strptimeIso l with
      | some v => some v
      | none =>
        match strptimeDmy l with
        | some v => some v
        | none => strptimeMdy l

/-- The rule chain of `_parse_date` after the empty-input check, on the
stripped lower-cased text: relative `ago` pattern, then "yesterday",
then "today", then the absolute formats; `none` means no rule matched
and the final fallback `datetime.now()` applies. -/
def tryRulesAsura (now : Int) (t : List Char) : Option Int :=
  match (if hasSub "ago".toList t then agoSearch now t else none) with
  | some v => some v
  | none =>
    if hasSub "yesterday".toList t then some (now - 86400)
    else if hasSub "today".toList t then some now
    else strptimeFormats t

/-- Embedding of `AsuraScans._parse_date` (src/scanlators/asura_scans.py,
lines 287-360): empty input returns the current time; otherwise the text
is stripped and lower-cased and the rules are tried in order; any
failure falls back to the current time.  The function is total by
construction — the Python original catches every exception. -/
def asuraParseDate (now : Int) (fechaTexto : String) : Int :=
  if fechaTexto.toList = [] then now
  else
    let t := lowerL (pyStrip fechaTexto.toList)
    match tryRulesAsura now t with
    | some v => v
    | none => now

/-! ### Chapter sorting in obtener_capitulos -/

/-- Model of Python `float` on the chapter-number strings the parsers
emit (shape `digits(.digits)?`, on which the float interpretation is
exact): the value is returned as an exact scaled integer
(mantissa, scale) with value mantissa / 10 ^ scale; `none` models
`float` raising ValueError.  Other float syntaxes (signs, exponents,
inf/nan) never occur as parser output and also map to `none`. -/
def numValParts (s : String) : Option (Nat × Nat) :=
  let l := s.toList
  let ds := l.takeWhile isDigitC
  if ds = [] then none
  else
    match l.dropWhile isDigitC with
    | [] => some (natOfDigits ds, 0)
    | '.' :: r =>
      let fs := r.takeWhile isDigitC
      if fs = [] then none
      else if r.dropWhile isDigitC = [] then
        some (natOfDigits ds * 10 ^ fs.length + natOfDigits fs, fs.length)
      else none
    | _ => none

/-- The rational number a scaled-integer pair denotes. -/
def ratOfParts (p : Nat × Nat) : ℚ :=
  (p.1 : ℚ) / ((10 : ℚ) ^ p.2)

/-- The numeric value of a chapter-number string as a rational (the
exact value of the Python float). -/
def floatOfNumStr (s : String) : Option ℚ :=
  (numValParts s).map ratOfParts

/-- A normalized chapter entry as built inside `obtener_capitulos`
(Spanish field names of the plugin contract: numero, titulo, url,
fecha). -/
structure Capitulo where
  numero : String
  titulo : String
  url : String
  fecha : Int
deriving DecidableEq, Repr

/-- The sort key of `AsuraScans.obtener_capitulos`
(src/scanlators/asura_scans.py, lines 230-234) in its exact
scaled-integer form: `(float(numero), fecha)` with the ValueError
fallback `(0, fecha)` (the fallback pair (0, 0) denotes the value 0). -/
def keyParts (x : Capitulo) : Nat × Nat :=
  (numValParts x.numero).getD (0, 0)

/-- The sort key as the Python tuple `(float value, date)`, with the
float value as an exact rational. -/
def sortKeyQ (x : Capitulo) : ℚ × Int :=
  match floatOfNumStr x.numero with
  | some q => (q, x.fecha)
  | none => ((0 : ℚ), x.fecha)

/-- Lexicographic comparison of sort keys (Python tuple comparison for
`list.sort(key=...)`), decided by cross multiplication of the exact
scaled-integer values so that it evaluates by kernel reduction. -/
def capLe (a b : Capitulo) : Prop :=
  (keyParts a).1 * 10 ^ (keyParts b).2 < (keyParts b).1 * 10 ^ (keyParts a).2 ∨
    ((keyParts a).1 * 10 ^ (keyParts b).2 = (keyParts b).1 * 10 ^ (keyParts a).2 ∧
      a.fecha ≤ b.fecha)

/-- The same lexicographic comparison phrased on the rational-valued
key; `capLe_iff_capLeQ` below shows the two agree. -/
def capLeQ (a b : Capitulo) : Prop :=
  (sortKeyQ a).1 < (sortKeyQ b).1 ∨
    ((sortKeyQ a).1 = (sortKeyQ b).1 ∧ (sortKeyQ a).2 ≤ (sortKeyQ b).2)

instance : DecidableRel capLe := fun a b => by
  unfold capLe
  infer_instance

instance : IsTotal Capitulo capLe := by
  constructor
  intro a b
  unfold capLe
  rcases Nat.lt_trichotomy ((keyParts a).1 * 10 ^ (keyParts b).2)
      ((keyParts b).1 * 10 ^ (keyParts a).2) with h | h | h
  · exact Or.inl (Or.inl h)
  · rcases le_total a.fecha b.fecha with h2 | h2
    · exact Or.inl (Or.inr ⟨h, h2⟩)
    · exact Or.inr (Or.inr ⟨h.symm, h2⟩)
  · exact Or.inr (Or.inl h)

instance : IsTrans Capitulo capLe := by
  constructor
  intro a b c hab hbc
  unfold capLe at hab hbc ⊢
  have hx : 0 < 10 ^ (keyParts a).2 := Nat.pos_pow_of_pos _ (by omega)
  have hy : 0 < 10 ^ (keyParts b).2 := Nat.pos_pow_of_pos _ (by omega)
  have hz : 0 < 10 ^ (keyParts c).2 := Nat.pos_pow_of_pos _ (by omega)
  rcases hab with hab | ⟨hab1, hab2⟩
  · rcases hbc with hbc | ⟨hbc1, hbc2⟩
    · left
      have h1 := Nat.mul_lt_mul_of_lt_of_le hab
        (Nat.le_refl (10 ^ (keyParts c).2)) hz
      have h2 := Nat.mul_lt_mul_of_lt_of_le hbc
        (Nat.le_refl (10 ^ (keyParts a).2)) hx
      have hcomb : (keyParts a).1 * 10 ^ (keyParts c).2 * 10 ^ (keyParts b).2 <
          (keyParts c).1 * 10 ^ (keyParts a).2 * 10 ^ (keyParts b).2 := by
        calc (keyParts a).1 * 10 ^ (keyParts c).2 * 10 ^ (keyParts b).2
            = (keyParts a).1 * 10 ^ (keyParts b).2 * 10 ^ (keyParts c).2 := by ring
          _ < (keyParts b).1 * 10 ^ (keyParts a).2 * 10 ^ (keyParts c).2 := h1
          _ = (keyParts b).1 * 10 ^ (keyParts c).2 * 10 ^ (keyParts a).2 := by ring
          _ < (keyParts c).1 * 10 ^ (keyParts b).2 * 10 ^ (keyParts a).2 := h2
          _ = (keyParts c).1 * 10 ^ (keyParts a).2 * 10 ^ (keyParts b).2 := by ring
      exact Nat.lt_of_mul_lt_mul_right hcomb
    · left
      have h2 : (keyParts b).1 * 10 ^ (keyParts a).2 * 10 ^ (keyParts c).2 =
          (keyParts c).1 * 10 ^ (keyParts a).2 * 10 ^ (keyParts b).2 := by
        calc (keyParts b).1 * 10 ^ (keyParts a).2 * 10 ^ (keyParts c).2
            = (keyParts b).1 * 10 ^ (keyParts c).2 * 10 ^ (keyParts a).2 := by ring
          _ = (keyParts c).1 * 10 ^ (keyParts b).2 * 10 ^ (keyParts a).2 := by rw [hbc1]
          _ = (keyParts c).1 * 10 ^ (keyParts a).2 * 10 ^ (keyParts b).2 := by ring
      have h1 := Nat.mul_lt_mul_of_lt_of_le hab
        (Nat.le_refl (10 ^ (keyParts c).2)) hz
      have hcomb : (keyParts a).1 * 10 ^ (keyParts c).2 * 10 ^ (keyParts b).2 <
          (keyParts c).1 * 10 ^ (keyParts a).2 * 10 ^ (keyParts b).2 := by
        calc (keyParts a).1 * 10 ^ (keyParts c).2 * 10 ^ (keyParts b).2
            = (keyParts a).1 * 10 ^ (keyParts b).2 * 10 ^ (keyParts c).2 := by ring
          _ < (keyParts b).1 * 10 ^ (keyParts a).2 * 10 ^ (keyParts c).2 := h1
          _ = (keyParts c).1 * 10 ^ (keyParts a).2 * 10 ^ (keyParts b).2 := h2
      exact Nat.lt_of_mul_lt_mul_right hcomb
  · rcases hbc with hbc | ⟨hbc1, hbc2⟩
    · left
      have h1 : (keyParts a).1 * 10 ^ (keyParts b).2 * 10 ^ (keyParts c).2 =
          (keyParts b).1 * 10 ^ (keyParts a).2 * 10 ^ (keyParts c).2 := by rw [hab1]
      have h2 := Nat.mul_lt_mul_of_lt_of_le hbc
        (Nat.le_refl (10 ^ (keyParts a).2)) hx
      have hcomb : (keyParts a).1 * 10 ^ (keyParts c).2 * 10 ^ (keyParts b).2 <
          (keyParts c).1 * 10 ^ (keyParts a).2 * 10 ^ (keyParts b).2 := by
        calc (keyParts a).1 * 10 ^ (keyParts c).2 * 10 ^ (keyParts b).2
            = (keyParts a).1 * 10 ^ (keyParts b).2 * 10 ^ (keyParts c).2 := by ring
          _ = (keyParts b).1 * 10 ^ (keyParts a).2 * 10 ^ (keyParts c).2 := h1
          _ = (keyParts b).1 * 10 ^ (keyParts c).2 * 10 ^ (keyParts a).2 := by ring
          _ < (keyParts c).1 * 10 ^ (keyParts b).2 * 10 ^ (keyParts a).2 := h2
          _ = (keyParts c).1 * 10 ^ (keyParts a).2 * 10 ^ (keyParts b).2 := by ring
      exact Nat.lt_of_mul_lt_mul_right hcomb
    · right
      constructor
      · have h1 : (keyParts a).1 * 10 ^ (keyParts b).2 * 10 ^ (keyParts c).2 =
            (keyParts b).1 * 10 ^ (keyParts a).2 * 10 ^ (keyParts c).2 := by rw [hab1]
        have h2 : (keyParts b).1 * 10 ^ (keyParts c).2 * 10 ^ (keyParts a).2 =
            (keyParts c).1 * 10 ^ (keyParts b).2 * 10 ^ (keyParts a).2 := by rw [hbc1]
        have hcomb : (keyParts a).1 * 10 ^ (keyParts c).2 * 10 ^ (keyParts b).2 =
            (keyParts c).1 * 10 ^ (keyParts a).2 * 10 ^ (keyParts b).2 := by
          calc (keyParts a).1 * 10 ^ (keyParts c).2 * 10 ^ (keyParts b).2
              = (keyParts a).1 * 10 ^ (keyParts b).2 * 10 ^ (keyParts c).2 := by ring
            _ = (keyParts b).1 * 10 ^ (keyParts a).2 * 10 ^ (keyParts c).2 := h1
            _ = (keyParts b).1 * 10 ^ (keyParts c).2 * 10 ^ (keyParts a).2 := by ring
            _ = (keyParts c).1 * 10 ^ (keyParts b).2 * 10 ^ (keyParts a).2 := h2
            _ = (keyParts c).1 * 10 ^ (keyParts a).2 * 10 ^ (keyParts b).2 := by ring
        exact Nat.eq_of_mul_eq_mul_right hy hcomb
      · exact hab2.trans hbc2

/-- A raw chapter triple as extracted from the page by
`AsuraScans.obtener_capitulos` before normalization. -/
structure RawCap where
  texto : String
  url : String
  fechaTexto : String
deriving DecidableEq, Repr

/-- The normalization loop of `AsuraScans.obtener_capitulos` (lines
213-226): parse the chapter number, parse the date, keep the raw text as
the title. -/
def asuraBuildCapitulos (now : Int) (raws : List RawCap) : List Capitulo :=
  raws.map (fun c =>
    { numero := asuraParsearNumeroCapitulo c.texto
      titulo := c.texto
      url := c.url
      fecha := asuraParseDate now c.fechaTexto })

/-- The `capitulos.sort(key=sort_key)` call of
`AsuraScans.obtener_capitulos`: Python sort is a stable ascending sort
by the key, modelled by insertion sort on the key order. -/
def asuraSortCapitulos (caps : List Capitulo) : List Capitulo :=
  List.insertionSort capLe caps

/-- The chapter pipeline of `AsuraScans.obtener_capitulos` from raw
extracted entries to the returned list. -/
def asuraObtenerCapitulos (now : Int) (raws : List RawCap) : List Capitulo :=
  asuraSortCapitulos (asuraBuildCapitulos now raws)

/-- The sort of `RavenScans.obtener_capitulos` (line 149):
`capitulos.sort(key=lambda x: (float(x["numero"]), x["fecha"]))` has no
ValueError fallback, so an unparsable numero raises and the enclosing
handler returns the empty list. -/
def ravenSortCapitulos (caps : List Capitulo) : List Capitulo :=
  if caps.all (fun c => (floatOfNumStr c.numero).isSome) then
    List.insertionSort capLe caps
  else []

/-! ### Tracker service (src/api/services/tracker_service.py)

The persistence store is the chapter table, a list of rows; per-chapter
`db.commit()` is modelled by threading the grown list through every
step.  The external adapter call and its possible exceptions are an
explicit outcome parameter. -/

/-- Job status values of `TrackingJob` ("pending", "running",
"completed", "failed"). -/
inductive JobStatus where
  | pending
  | running
  | completed
  | failed
deriving DecidableEq, Repr

/-- A manga-scanlator mapping row as read and used by
`_run_tracking_job` and `_process_mapping` (fields as accessed on the
ORM objects: mapping id, foreign keys, the manually_verified flag, the
site URL, and the joined manga title / scanlator display name). -/
structure Mapping where
  id : Nat
  mangaId : Nat
  scanlatorId : Nat
  manuallyVerified : Bool
  scanlatorMangaUrl : String
  mangaTitle : String
  scanlatorName : String
deriving DecidableEq, Repr

/-- A chapter row as inserted by `_process_mapping` (fields of the
`Chapter(...)` constructor call, lines 212-220). -/
structure ChapterRow where
  mangaScanlatorId : Nat
  chapterNumber : String
  chapterTitle : Option String
  chapterUrl : String
  publishedDate : Option Int
  detectedDate : Int
  read : Bool
deriving DecidableEq, Repr

/-- A raw chapter dict returned by a plugin's `obtener_capitulos`
(keys numero, titulo, url, fecha as consumed by `_process_mapping`). -/
structure RawChapter where
  numero : String
  titulo : Option String
  url : String
  fecha : Option Int
deriving DecidableEq, Repr

/-- One entry of `job.chapters_data` (lines 225-232). -/
structure NotifChapter where
  mangaTitle : String
  chapterNumber : String
  title : Option String
  url : String
  scanlatorName : String
  detectedDate : Int
deriving DecidableEq, Repr

/-- A `TrackingJob` object: identifier, status, timestamps, counters,
error strings and accumulated notification payloads. -/
structure JobState where
  jobId : String
  status : JobStatus
  startedAt : Option Int
  completedAt : Option Int
  totalMappings : Nat
  processedMappings : Nat
  newChaptersFound : Nat
  errors : List String
  chaptersData : List NotifChapter
deriving DecidableEq, Repr

/-- `TrackingJob.__init__`: a fresh pending job. -/
def initJob (jid : String) : JobState :=
  { jobId := jid, status := .pending, startedAt := none, completedAt := none
    totalMappings := 0, processedMappings := 0, newChaptersFound := 0
    errors := [], chaptersData := [] }

/-- The existence check of `_process_mapping` (lines 204-209): a row
with the same (manga_scanlator_id, chapter_number) pair. -/
def chapterExists (db : List ChapterRow) (msId : Nat) (num : String) : Bool :=
  db.any (fun r => r.mangaScanlatorId == msId && r.chapterNumber == num)

/-- The row built and committed for a new chapter (lines 212-222). -/
def mkChapterRow (now : Int) (m : Mapping) (c : RawChapter) : ChapterRow :=
  { mangaScanlatorId := m.id, chapterNumber := c.numero
    chapterTitle := c.titulo, chapterUrl := c.url
    publishedDate := c.fecha, detectedDate := now, read := false }

/-- The `job.chapters_data` entry appended for a new chapter (lines
225-232). -/
def mkNotifChapter (now : Int) (m : Mapping) (c : RawChapter) : NotifChapter :=
  { mangaTitle := m.mangaTitle, chapterNumber := c.numero, title := c.titulo
    url := c.url, scanlatorName := m.scanlatorName, detectedDate := now }

/-- The chapter loop of `_process_mapping` (lines 200-232): for each
fetched chapter, insert-and-commit when the (mapping, number) pair is
absent, bumping the new-chapter counter and the notification payload. -/
def processChapters (now : Int) (m : Mapping) :
    List RawChapter → List ChapterRow → JobState → List ChapterRow × JobState
  | [], db, job => (db, job)
  | c :: cs, db, job =>
    if chapterExists db m.id c.numero then
      processChapters now m cs db job
    else
      processChapters now m cs (db ++ [mkChapterRow now m c])
        { job with
          newChaptersFound := job.newChaptersFound + 1
          chaptersData := job.chaptersData ++ [mkNotifChapter now m c] }

/-- Outcome of one `_process_mapping` invocation, as seen from the
mapping loop of `_run_tracking_job`: either the chapter loop completes,
or an exception with message `msg` is raised after the first `k` fetched
chapters were handled (`k = 0` covers plugin-resolution failure, page
failure and `obtener_capitulos` itself raising). -/
inductive FetchOutcome where
  | ok (chapters : List RawChapter)
  | failAfter (k : Nat) (msg : String) (chapters : List RawChapter)
deriving DecidableEq

/-- The error string appended by the mapping-boundary handler (line
155). -/
def errorMsgFor (mid : Nat) (msg : String) : String :=
  "Error processing mapping " ++ toString mid ++ ": " ++ msg

/-- The error string appended by the job-level handler (line 172). -/
def jobFailedMsg (msg : String) : String :=
  "Job failed: " ++ msg

/-- One iteration body of the mapping loop of `_run_tracking_job`
(lines 150-157): on success the processed counter is incremented; on an
exception the handler appends one error string and rolls nothing
back. -/
def applyOutcome (now : Int) (m : Mapping) (outcome : FetchOutcome)
    (db : List ChapterRow) (job : JobState) : List ChapterRow × JobState :=
  match outcome with
  | .ok cs =>
    let r := processChapters now m cs db job
    (r.1, { r.2 with processedMappings := r.2.processedMappings + 1 })
  | .failAfter k msg cs =>
    let r := processChapters now m (cs.take k) db job
    (r.1, { r.2 with errors := r.2.errors ++ [errorMsgFor m.id msg] })

/-- The mapping loop of `_run_tracking_job` (lines 150-157): process
each mapping in order through `applyOutcome`. -/
def runMappingLoop (now : Int) (adapter : Mapping → FetchOutcome) :
    List Mapping → List ChapterRow → JobState → List ChapterRow × JobState
  | [], db, job => (db, job)
  | m :: ms, db, job =>
    let r := applyOutcome now m (adapter m) db job
    runMappingLoop now adapter ms r.1 r.2

/-- Python truthiness of the optional id filters (`if manga_id:` treats
both None and 0 as absent). -/
def truthyId : Option Nat → Bool
  | none => false
  | some n => n != 0

/-- The eligibility query of `_run_tracking_job` (lines 131-141):
mappings with manually_verified true, optionally narrowed by manga id
and scanlator id.  The query has no condition on the scanlator beyond
the id filter. -/
def eligibleMappings (table : List Mapping) (mangaId scanlatorId : Option Nat) :
    List Mapping :=
  let q1 := table.filter (fun m => m.manuallyVerified)
  let q2 := if truthyId mangaId then q1.filter (fun m => m.mangaId == mangaId.getD 0) else q1
  if truthyId scanlatorId then q2.filter (fun m => m.scanlatorId == scanlatorId.getD 0) else q2

/-- Inputs of one `_run_tracking_job` execution: the mapping table and
filters, the notify flag, the adapter outcomes, whether the setup part
(query, browser launch) raises, and whether the notifier call raises,
plus the initial chapter table and the clock. -/
structure RunConfig where
  table : List Mapping
  mangaId : Option Nat
  scanlatorId : Option Nat
  notify : Bool
  adapter : Mapping → FetchOutcome
  setupErr : Option String
  notifierErr : Option String
  db : List ChapterRow
  now : Int

/-- Result of one `_run_tracking_job` execution: the final job object,
the final chapter table, and the sequence of values assigned to
`job.status` over the run (starting from the constructor's "pending"):
the observable status trajectory. -/
structure RunResult where
  job : JobState
  db : List ChapterRow
  statusTrace : List JobStatus

/-- Embedding of `_run_tracking_job` (lines 116-178): set running,
query, loop over mappings with per-mapping isolation, set completed,
then optionally notify — an exception in setup or in the notifier is
caught by the job-level handler which sets status "failed" and appends a
job error; `finally` records the completion time. -/
def runTrackingJob (cfg : RunConfig) (jid : String) : RunResult :=
  let job0 := initJob jid
  let job1 := { job0 with status := .running, startedAt := some cfg.now }
  match cfg.setupErr with
  | some msg =>
    let jobF := { job1 with
      status := .failed,
      errors := job1.errors ++ [jobFailedMsg msg],
      completedAt := some cfg.now }
    { job := jobF, db := cfg.db
      statusTrace := [.pending, .running, .failed] }
  | none =>
    let elig := eligibleMappings cfg.table cfg.mangaId cfg.scanlatorId
    let job2 := { job1 with totalMappings := elig.length }
    let (db1, job3) := runMappingLoop cfg.now cfg.adapter elig cfg.db job2
    let job4 := { job3 with status := .completed }
    match cfg.notifierErr with
    | some msg =>
      if cfg.notify && job4.newChaptersFound > 0 then
        let job5 := { job4 with
          status := .failed,
          errors := job4.errors ++ [jobFailedMsg msg],
          completedAt := some cfg.now }
        { job := job5, db := db1
          statusTrace := [.pending, .running, .completed, .failed] }
      else
        { job := { job4 with completedAt := some cfg.now }, db := db1
          statusTrace := [.pending, .running, .completed] }
    | none =>
      { job := { job4 with completedAt := some cfg.now }, db := db1
        statusTrace := [.pending, .running, .completed] }

/-- The uniqueness invariant of the chapter table: no two rows share the
(manga_scanlator_id, chapter_number) pair — the `unique_chapter`
constraint keyed per mapping. -/
def uniqueChapterInv (db : List ChapterRow) : Prop :=
  db.Pairwise (fun a b =>
    ¬(a.mangaScanlatorId = b.mangaScanlatorId ∧ a.chapterNumber = b.chapterNumber))

/-! ### Job registry (get_job_status, list_jobs) -/

/-- The in-memory jobs map, keyed by job id (`self.jobs`). -/
def lookupJob : List (String × JobState) → String → Option JobState
  | [], _ => none
  | (k, v) :: rest, jid => if k = jid then some v else lookupJob rest jid

/-- Embedding of `TrackerService.get_job_status` (lines 78-95): `none`
is the not-found signal for an unknown job id, otherwise the job's
status view. -/
def getJobStatus (jobs : List (String × JobState)) (jid : String) : Option JobState :=
  lookupJob jobs jid

/-- One summary dict of `list_jobs` (lines 106-114). -/
structure JobSummary where
  jobId : String
  status : JobStatus
  startedAt : Option Int
  newChaptersFound : Nat
deriving DecidableEq, Repr

/-- The model of `datetime.min`, the key substituted for a job that has
not started; every actually-started job has a positive timestamp. -/
def dtMin : Int := 0

/-- The sort key of `list_jobs`: `j.started_at or datetime.min`. -/
def listKey (j : JobState) : Int :=
  j.startedAt.getD dtMin

/-- Descending order on the `list_jobs` sort key (`reverse=True`). -/
def jobDesc (a b : JobState) : Prop :=
  listKey b ≤ listKey a

instance : DecidableRel jobDesc := fun a b => by
  unfold jobDesc
  infer_instance

instance : IsTotal JobState jobDesc := by
  constructor
  intro a b
  exact le_total (listKey b) (listKey a)

instance : IsTrans JobState jobDesc := by
  constructor
  intro a b c h1 h2
  exact h2.trans h1

/-- Embedding of `TrackerService.list_jobs` (lines 97-114): stable sort
of the jobs by start time descending (unstarted jobs keyed at
`datetime.min`), truncation to `limit`, and projection to summaries. -/
def listJobs (jobs : List JobState) (limit : Nat) : List JobSummary :=
  ((List.insertionSort jobDesc jobs).take limit).map (fun j =>
    { jobId := j.jobId, status := j.status, startedAt := j.startedAt
      newChaptersFound := j.newChaptersFound })

/-! ### Specification-side definitions used for refinement claims -/

/-- Modelled from the spec: the spec's eligibility filter
"manually-verified mappings on active sites" requires a site-activity
flag; no such flag exists on the Scanlator model in src (src/api/
models.py) and the query in `_run_tracking_job` has no such condition,
so the activity assignment is an abstract parameter here. -/
def specEligibleMappings (active : Nat → Bool) (table : List Mapping)
    (mangaId scanlatorId : Option Nat) : List Mapping :=
  let q1 := table.filter (fun m => m.manuallyVerified && active m.scanlatorId)
  let q2 := if truthyId mangaId then q1.filter (fun m => m.mangaId == mangaId.getD 0) else q1
  if truthyId scanlatorId then q2.filter (fun m => m.scanlatorId == scanlatorId.getD 0) else q2

end Mangataro

namespace Mangataro

/-! ## Character-level lemmas -/

theorem char_le_iff {a b : Char} : (a ≤ b) ↔ a.toNat ≤ b.toNat := by
  rw [Char.le_def]
  exact ⟨fun h => h, fun h => h⟩

theorem isDigitC_iff {c : Char} : isDigitC c = true ↔ 48 ≤ c.toNat ∧ c.toNat ≤ 57 := by
  simp [isDigitC, char_le_iff]

theorem toNat_lowerChar_upper {c : Char} (h1 : 65 ≤ c.toNat) (h2 : c.toNat ≤ 90) :
    (lowerChar c).toNat = c.toNat + 32 := by
  have hc : ('A' ≤ c && c ≤ 'Z') = true := by
    simp [char_le_iff]
    constructor
    · exact h1
    · exact h2
  unfold lowerChar
  rw [hc, if_pos rfl]
  have hv : (c.toNat + 32).isValidChar := by
    unfold Nat.isValidChar
    omega
  rw [Char.ofNat, dif_pos hv]
  rfl

theorem lowerChar_of_not_upper {c : Char} (h : ¬(65 ≤ c.toNat ∧ c.toNat ≤ 90)) :
    lowerChar c = c := by
  unfold lowerChar
  have hc : ('A' ≤ c && c ≤ 'Z') = false := by
    simp [char_le_iff]
    omega
  rw [hc]
  simp

theorem lowerChar_of_digit {c : Char} (h : isDigitC c = true) : lowerChar c = c := by
  rw [isDigitC_iff] at h
  exact lowerChar_of_not_upper (by omega)

theorem isDigitC_lowerChar (c : Char) : isDigitC (lowerChar c) = isDigitC c := by
  by_cases h : 65 ≤ c.toNat ∧ c.toNat ≤ 90
  · have h1 := toNat_lowerChar_upper h.1 h.2
    have h2 : isDigitC (lowerChar c) = false := by
      rw [Bool.eq_false_iff]
      intro hd
      rw [isDigitC_iff] at hd
      omega
    rw [h2]
    symm
    rw [Bool.eq_false_iff]
    intro hd
    rw [isDigitC_iff] at hd
    omega
  · rw [lowerChar_of_not_upper h]

theorem char_eq_iff_toNat {a b : Char} : a = b ↔ a.toNat = b.toNat := by
  constructor
  · intro h
    rw [h]
  · intro h
    apply Char.ext
    exact UInt32.ext h

theorem lowerChar_eq_dot {c : Char} : lowerChar c = '.' ↔ c = '.' := by
  by_cases h : 65 ≤ c.toNat ∧ c.toNat ≤ 90
  · have h1 := toNat_lowerChar_upper h.1 h.2
    have hdot : ('.' : Char).toNat = 46 := by decide
    constructor
    · intro hc
      rw [char_eq_iff_toNat, h1, hdot] at hc
      omega
    · intro hc
      subst hc
      simp at h
    -- no case left
  · rw [lowerChar_of_not_upper h]

theorem isSpaceC_not_digit {c : Char} (h : isSpaceC c = true) : isDigitC c = false := by
  simp [isSpaceC] at h
  rcases h with ((((h | h) | h) | h) | h) | h <;> subst h <;> decide

/-! ## Lemmas on the first numeric token (claim C4) -/

theorem isDigitC_comp_lowerChar : (isDigitC ∘ lowerChar) = isDigitC :=
  funext isDigitC_lowerChar

theorem lowerL_of_digits (l : List Char) (h : ∀ c ∈ l, isDigitC c = true) :
    lowerL l = l := by
  unfold lowerL
  induction l with
  | nil => rfl
  | cons c cs ih =>
    simp only [List.map_cons]
    rw [lowerChar_of_digit (h c (by simp))]
    rw [ih (fun x hx => h x (by simp [hx]))]

theorem takeWhile_lowerL_digits (l : List Char) :
    (lowerL l).takeWhile isDigitC = l.takeWhile isDigitC := by
  unfold lowerL
  rw [List.takeWhile_map, isDigitC_comp_lowerChar]
  exact lowerL_of_digits _ (fun c hc => List.mem_takeWhile_imp hc)

theorem dropWhile_lowerL_digits (l : List Char) :
    (lowerL l).dropWhile isDigitC = lowerL (l.dropWhile isDigitC) := by
  unfold lowerL
  rw [List.dropWhile_map, isDigitC_comp_lowerChar]

theorem numTokenAt_lowerL (l : List Char) : numTokenAt (lowerL l) = numTokenAt l := by
  unfold numTokenAt
  simp only [takeWhile_lowerL_digits l, dropWhile_lowerL_digits l]
  by_cases h : l.takeWhile isDigitC = []
  · simp [h]
  · rw [if_neg h, if_neg h]
    generalize l.dropWhile isDigitC = rest
    cases rest with
    | nil => rfl
    | cons r rs =>
      have hl : lowerL (r :: rs) = lowerChar r :: lowerL rs := rfl
      rw [hl]
      by_cases hr : r = '.'
      · subst hr
        have hld : lowerChar '.' = '.' := by decide
        rw [hld]
        simp only [takeWhile_lowerL_digits rs]
      · have hn : lowerChar r ≠ '.' := fun hc => hr (lowerChar_eq_dot.mp hc)
        split
        · next heq =>
          exact absurd (List.cons.injEq .. ▸ heq).1 hn
        · split
          · next heq =>
            exact absurd (List.cons.injEq .. ▸ heq).1 hr
          · rfl

theorem firstNum_lowerL (l : List Char) : firstNum (lowerL l) = firstNum l := by
  induction l with
  | nil => rfl
  | cons c cs ih =>
    have hl : lowerL (c :: cs) = lowerChar c :: lowerL cs := rfl
    show firstNum (lowerL (c :: cs)) = firstNum (c :: cs)
    rw [hl]
    unfold firstNum
    have ht : numTokenAt (lowerChar c :: lowerL cs) = numTokenAt (c :: cs) :=
      numTokenAt_lowerL (c :: cs)
    rw [ht]
    cases numTokenAt (c :: cs) with
    | some t => rfl
    | none => exact ih

theorem firstNum_cons_nondigit {c : Char} {cs : List Char} (h : isDigitC c = false) :
    firstNum (c :: cs) = firstNum cs := by
  have ht : numTokenAt (c :: cs) = none := by
    unfold numTokenAt
    have he : (c :: cs).takeWhile isDigitC = [] := by
      rw [List.takeWhile_cons_of_neg]
      simp [h]
    simp [he]
  show (match numTokenAt (c :: cs) with
        | some t => some t
        | none => firstNum cs) = firstNum cs
  rw [ht]

theorem firstNum_append_nondigits (pre l : List Char)
    (h : ∀ c ∈ pre, isDigitC c = false) : firstNum (pre ++ l) = firstNum l := by
  induction pre with
  | nil => rfl
  | cons c cs ih =>
    rw [List.cons_append, firstNum_cons_nondigit (h c (by simp))]
    exact ih (fun x hx => h x (by simp [hx]))

theorem headMatches_decomp {n l : List Char} (h : headMatches n l = true) :
    l = n ++ l.drop n.length := by
  induction n generalizing l with
  | nil => simp
  | cons a ns ih =>
    cases l with
    | nil => simp [headMatches] at h
    | cons b bs =>
      simp only [headMatches, Bool.and_eq_true, decide_eq_true_eq] at h
      obtain ⟨rfl, h2⟩ := h
      simpa using ih h2

theorem firstNum_drop_of_headMatches (w l : List Char)
    (hw : ∀ c ∈ w, isDigitC c = false) (hm : headMatches w l = true) :
    firstNum (l.drop w.length) = firstNum l := by
  have hd := headMatches_decomp hm
  have h2 := firstNum_append_nondigits w (l.drop w.length) hw
  rw [← hd] at h2
  exact h2.symm

theorem firstNum_dropWhile_space (l : List Char) :
    firstNum (l.dropWhile isSpaceC) = firstNum l := by
  have hsplit := List.takeWhile_append_dropWhile isSpaceC l
  have h2 := firstNum_append_nondigits (l.takeWhile isSpaceC) (l.dropWhile isSpaceC)
    (fun c hc => isSpaceC_not_digit (List.mem_takeWhile_imp hc))
  rw [hsplit] at h2
  exact h2.symm

theorem firstNum_asuraStripHead (l : List Char) :
    firstNum (asuraStripHead l) = firstNum l := by
  unfold asuraStripHead
  cases ha : asuraAltAt l with
  | none => rfl
  | some rest =>
    show firstNum (rest.dropWhile isSpaceC) = firstNum l
    rw [firstNum_dropWhile_space]
    unfold asuraAltAt at ha
    repeat' split at ha
    all_goals first | (injection ha with h2; subst h2) | injection ha
    all_goals
      first
      | exact firstNum_drop_of_headMatches ("chapter".toList) _ (by decide) (by assumption)
      | exact firstNum_drop_of_headMatches ("ch.".toList) _ (by decide) (by assumption)
      | exact firstNum_drop_of_headMatches ("ch".toList) _ (by decide) (by assumption)
      | exact firstNum_drop_of_headMatches ("episode".toList) _ (by decide) (by assumption)
      | exact firstNum_drop_of_headMatches ("ep.".toList) _ (by decide) (by assumption)
      | exact firstNum_drop_of_headMatches ("ep".toList) _ (by decide) (by assumption)
      | exact firstNum_drop_of_headMatches ("cap.".toList) _ (by decide) (by assumption)
      | exact firstNum_drop_of_headMatches ("cap".toList) _ (by decide) (by assumption)
      | exact firstNum_drop_of_headMatches
          ('c' :: 'a' :: 'p' :: mojA :: mojSoft :: "tulo".toList) _ (by decide) (by assumption)

/-! ## Lemmas for the date normalizer (claims C6, C7) -/

theorem digit_not_space {c : Char} (h : isDigitC c = true) : isSpaceC c = false := by
  rw [isDigitC_iff] at h
  rw [Bool.eq_false_iff]
  intro hs
  have h32 : (' ' : Char).toNat = 32 := by decide
  have h9 : ('\t' : Char).toNat = 9 := by decide
  have h10 : ('\n' : Char).toNat = 10 := by decide
  have h13 : ('\x0d' : Char).toNat = 13 := by decide
  have h11 : ('\x0b' : Char).toNat = 11 := by decide
  have h12 : ('\x0c' : Char).toNat = 12 := by decide
  simp only [isSpaceC, Bool.or_eq_true, decide_eq_true_eq] at hs
  rcases hs with ((((hs | hs) | hs) | hs) | hs) | hs <;>
    rw [char_eq_iff_toNat] at hs <;> omega

theorem takeWhile_append_of_all (p : Char → Bool) (l r : List Char)
    (h : ∀ c ∈ l, p c = true) :
    (l ++ r).takeWhile p = l ++ r.takeWhile p := by
  induction l with
  | nil => rfl
  | cons c cs ih =>
    rw [List.cons_append, List.takeWhile_cons_of_pos (h c (by simp)), List.cons_append]
    rw [ih (fun x hx => h x (by simp [hx]))]

theorem dropWhile_append_of_all (p : Char → Bool) (l r : List Char)
    (h : ∀ c ∈ l, p c = true) :
    (l ++ r).dropWhile p = r.dropWhile p := by
  induction l with
  | nil => rfl
  | cons c cs ih =>
    rw [List.cons_append, List.dropWhile_cons_of_pos (h c (by simp))]
    exact ih (fun x hx => h x (by simp [hx]))

theorem dropTrail_append_single (p : Char → Bool) (l : List Char) (c : Char)
    (h : p c = false) : dropTrail p (l ++ [c]) = l ++ [c] := by
  unfold dropTrail
  rw [List.reverse_append]
  simp only [List.reverse_cons, List.reverse_nil, List.nil_append, List.singleton_append]
  rw [List.dropWhile_cons_of_neg (by simp [h])]
  simp

theorem pyStrip_digits_append (ds r1 : List Char) (c : Char) (hne : ds ≠ [])
    (hdig : ∀ x ∈ ds, isDigitC x = true) (hc : isSpaceC c = false) :
    pyStrip (ds ++ (r1 ++ [c])) = ds ++ (r1 ++ [c]) := by
  obtain ⟨d, ds2, rfl⟩ : ∃ d ds2, ds = d :: ds2 := by
    cases ds with
    | nil => exact absurd rfl hne
    | cons d ds2 => exact ⟨d, ds2, rfl⟩
  unfold pyStrip
  rw [List.cons_append, List.dropWhile_cons_of_neg (by simp [digit_not_space (hdig d (by simp))])]
  have hshape : d :: (ds2 ++ (r1 ++ [c])) = (d :: (ds2 ++ r1)) ++ [c] := by simp
  rw [hshape, dropTrail_append_single _ _ _ hc, ← hshape]

theorem lowerL_append (l r : List Char) : lowerL (l ++ r) = lowerL l ++ lowerL r := by
  simp [lowerL]

theorem hasSub_append_right (n l r : List Char) (h : hasSub n r = true) :
    hasSub n (l ++ r) = true := by
  induction l with
  | nil => exact h
  | cons c cs ih =>
    rw [List.cons_append]
    cases r with
    | nil =>
      simp only [hasSub]
      rw [List.append_nil] at ih ⊢
      simp [ih]
    | cons x xs =>
      simp [hasSub, ih]

theorem tryAgoAt_relative (now : Int) (ds : List Char) (u : AgoUnit)
    (hne : ds ≠ []) (hdig : ∀ c ∈ ds, isDigitC c = true) :
    tryAgoAt now (ds ++ ' ' :: (agoUnitWord u ++ ' ' :: "ago".toList)) =
      some (now - (natOfDigits ds : Int) * agoUnitSeconds u) := by
  have h1 : (ds ++ ' ' :: (agoUnitWord u ++ ' ' :: "ago".toList)).takeWhile isDigitC = ds := by
    rw [takeWhile_append_of_all _ _ _ hdig]
    have h0 : (' ' :: (agoUnitWord u ++ ' ' :: "ago".toList)).takeWhile isDigitC = [] := by
      cases u <;> decide
    rw [h0, List.append_nil]
  have h2 : (ds ++ ' ' :: (agoUnitWord u ++ ' ' :: "ago".toList)).dropWhile isDigitC =
      ' ' :: (agoUnitWord u ++ ' ' :: "ago".toList) := by
    rw [dropWhile_append_of_all _ _ _ hdig]
    cases u <;> decide
  have h3 : (' ' :: (agoUnitWord u ++ ' ' :: "ago".toList)).takeWhile isSpaceC = [' '] := by
    cases u <;> decide
  have h4 : (' ' :: (agoUnitWord u ++ ' ' :: "ago".toList)).dropWhile isSpaceC =
      agoUnitWord u ++ ' ' :: "ago".toList := by
    cases u <;> decide
  have h5 : unitAt (agoUnitWord u ++ ' ' :: "ago".toList) =
      some (agoUnitSeconds u, ' ' :: "ago".toList) := by
    cases u <;> decide
  have h6 : tailAfterUnit (' ' :: "ago".toList) = true := by decide
  unfold tryAgoAt
  simp only [h1, h2, h3, h4, h5, h6]
  rw [if_neg hne]
  simp

theorem agoSearch_head_some {now : Int} {l : List Char} {v : Int}
    (h : tryAgoAt now l = some v) (hne : l ≠ []) : agoSearch now l = some v := by
  cases l with
  | nil => exact absurd rfl hne
  | cons c cs =>
    unfold agoSearch
    rw [h]

theorem tryRules_of_ago {now : Int} {t : List Char} {v : Int}
    (hsub : hasSub "ago".toList t = true) (hs : agoSearch now t = some v) :
    tryRulesAsura now t = some v := by
  unfold tryRulesAsura
  rw [if_pos hsub, hs]

/-- Claim C6: for every relative-date input `<N> <unit> ago` with N a
positive integer (given by its digit string) and unit one of the seven
supported units, `_parse_date` returns the current time minus N units,
with one month as exactly 30 days and one year as exactly 365 days. -/
theorem C6_relative_date_normalization (now : Int) (ds : List Char) (u : AgoUnit)
    (hne : ds ≠ []) (hdig : ∀ c ∈ ds, isDigitC c = true)
    (hpos : 0 < natOfDigits ds) :
    asuraParseDate now (mkRelativeInput ds u) =
      now - (natOfDigits ds : Int) * agoUnitSeconds u := by
  have htl : (mkRelativeInput ds u).toList =
      ds ++ ' ' :: (agoUnitWord u ++ ' ' :: "ago".toList) := rfl
  have htne : ds ++ ' ' :: (agoUnitWord u ++ ' ' :: "ago".toList) ≠ [] := by
    cases ds with
    | nil => exact absurd rfl hne
    | cons d ds2 => simp
  have hshape : ' ' :: (agoUnitWord u ++ ' ' :: "ago".toList) =
      (' ' :: (agoUnitWord u ++ [' ', 'a', 'g'])) ++ ['o'] := by
    cases u <;> decide
  have hstrip : pyStrip (ds ++ ' ' :: (agoUnitWord u ++ ' ' :: "ago".toList)) =
      ds ++ ' ' :: (agoUnitWord u ++ ' ' :: "ago".toList) := by
    rw [hshape]
    exact pyStrip_digits_append ds _ 'o' hne hdig (by decide)
  have hlow : lowerL (ds ++ ' ' :: (agoUnitWord u ++ ' ' :: "ago".toList)) =
      ds ++ ' ' :: (agoUnitWord u ++ ' ' :: "ago".toList) := by
    rw [lowerL_append, lowerL_of_digits ds hdig]
    have : lowerL (' ' :: (agoUnitWord u ++ ' ' :: "ago".toList)) =
        ' ' :: (agoUnitWord u ++ ' ' :: "ago".toList) := by
      cases u <;> decide
    rw [this]
  have hsub : hasSub "ago".toList (ds ++ ' ' :: (agoUnitWord u ++ ' ' :: "ago".toList)) = true := by
    apply hasSub_append_right
    cases u <;> decide
  have hsearch : agoSearch now (ds ++ ' ' :: (agoUnitWord u ++ ' ' :: "ago".toList)) =
      some (now - (natOfDigits ds : Int) * agoUnitSeconds u) :=
    agoSearch_head_some (tryAgoAt_relative now ds u hne hdig) htne
  unfold asuraParseDate
  rw [htl, if_neg htne, hstrip, hlow]
  simp only [tryRules_of_ago hsub hsearch]

/-- Claim C6 (witness): "3 day ago" three days before epoch 0. -/
theorem C6_witness :
    asuraParseDate 0 "3 day ago" = 0 - (3 : Int) * 86400 :=
  C6_relative_date_normalization 0 ['3'] .day (by decide)
    (by decide) (by decide)

/-- Claim C7: the date normalizer is total — it is a Lean function
returning a timestamp for every input string (the Python original
catches every exception); the empty string yields the current time, and
any input on which no rule of the chain matches falls back to the
current time. -/
theorem C7_date_normalizer_totality (now : Int) (s : String) :
    asuraParseDate now "" = now ∧
      (tryRulesAsura now (lowerL (pyStrip s.toList)) = none →
        asuraParseDate now s = now) := by
  constructor
  · rfl
  · intro h
    unfold asuraParseDate
    by_cases he : s.toList = []
    · rw [if_pos he]
    · rw [if_neg he]
      simp only [h]

/-- Claim C7 (witness): the unparsable input "garbage" matches no rule
and yields the current time. -/
theorem C7_witness :
    tryRulesAsura 0 (lowerL (pyStrip "garbage".toList)) = none ∧
      asuraParseDate 0 "garbage" = 0 :=
  ⟨by decide, (C7_date_normalizer_totality 0 "garbage").2 (by decide)⟩

/-! ## Claim C5: adapter output ordering -/

theorem sortKeyQ_fst (x : Capitulo) : (sortKeyQ x).1 = ratOfParts (keyParts x) := by
  unfold sortKeyQ floatOfNumStr keyParts
  cases h : numValParts x.numero with
  | none => simp [h, ratOfParts]
  | some p => simp [h]

theorem sortKeyQ_snd (x : Capitulo) : (sortKeyQ x).2 = x.fecha := by
  unfold sortKeyQ
  cases floatOfNumStr x.numero <;> rfl

theorem capLe_iff_capLeQ (a b : Capitulo) : capLe a b ↔ capLeQ a b := by
  unfold capLe capLeQ
  rw [sortKeyQ_fst, sortKeyQ_fst, sortKeyQ_snd, sortKeyQ_snd]
  unfold ratOfParts
  have ha : (0 : ℚ) < (10 : ℚ) ^ (keyParts a).2 := by positivity
  have hb : (0 : ℚ) < (10 : ℚ) ^ (keyParts b).2 := by positivity
  rw [div_lt_div_iff₀ ha hb, div_eq_div_iff (ne_of_gt ha) (ne_of_gt hb)]
  constructor
  · rintro (h | ⟨h1, h2⟩)
    · exact Or.inl (by exact_mod_cast h)
    · exact Or.inr ⟨by exact_mod_cast h1, h2⟩
  · rintro (h | ⟨h1, h2⟩)
    · exact Or.inl (by exact_mod_cast h)
    · exact Or.inr ⟨by exact_mod_cast h1, h2⟩

/-- Claim C5: for every input list of raw chapter entries, the list
returned by the chapter pipeline of `AsuraScans.obtener_capitulos` is
sorted ascending by the pair (chapter number as a numeric value, date)
and is a permutation of the normalized entries; the Raven sort is also
always sorted (an unparsable numero raises and yields the empty list,
otherwise it permutes its input); in particular chapter numbers
["10", "2", "2.5"] come out ordered ["2", "2.5", "10"]. -/
theorem C5_adapter_output_ordering :
    (∀ (now : Int) (raws : List RawCap),
        List.Sorted capLeQ (asuraObtenerCapitulos now raws) ∧
          (asuraObtenerCapitulos now raws).Perm (asuraBuildCapitulos now raws)) ∧
    (∀ caps : List Capitulo,
        List.Sorted capLeQ (ravenSortCapitulos caps) ∧
          (caps.all (fun c => (floatOfNumStr c.numero).isSome) = true →
            (ravenSortCapitulos caps).Perm caps)) ∧
    ((asuraObtenerCapitulos 0
        [⟨"Chapter 10", "u1", ""⟩, ⟨"Chapter 2", "u2", ""⟩, ⟨"Chapter 2.5", "u3", ""⟩]).map
          Capitulo.numero = ["2", "2.5", "10"]) := by
  refine ⟨fun now raws => ⟨?_, ?_⟩, fun caps => ⟨?_, ?_⟩, ?_⟩
  · exact (List.sorted_insertionSort capLe _).imp
      (fun h => (capLe_iff_capLeQ _ _).mp h)
  · exact List.perm_insertionSort capLe _
  · unfold ravenSortCapitulos
    by_cases h : caps.all (fun c => (floatOfNumStr c.numero).isSome) = true
    · rw [if_pos h]
      exact (List.sorted_insertionSort capLe _).imp
        (fun h => (capLe_iff_capLeQ _ _).mp h)
    · rw [if_neg h]
      exact List.sorted_nil
  · intro h
    unfold ravenSortCapitulos
    rw [if_pos h]
    exact List.perm_insertionSort capLe _
  · decide

/-- Claim C5 (witness): a one-element chapter list with a parsable
numero is kept (as a permutation of itself) by the Raven sort. -/
theorem C5_witness :
    (([⟨"10", "t", "u", 0⟩] : List Capitulo).all
        (fun c => (floatOfNumStr c.numero).isSome) = true) ∧
      (ravenSortCapitulos [⟨"10", "t", "u", 0⟩]).Perm [⟨"10", "t", "u", 0⟩] :=
  ⟨by decide, (C5_adapter_output_ordering.2.1 [⟨"10", "t", "u", 0⟩]).2 (by decide)⟩

/-- Claim C4 (amended): chapter-number normalization as implemented by
`AsuraScans.parsear_numero_capitulo` — any text whose lower-casing
contains the substring "first" returns "1" (checked before prefix
stripping); otherwise the result is the exact first numeric substring of
the raw text matching `digits(.digits)?`, decimals preserved, because
stripping a documented prefix (none of which contains a digit) cannot
change that substring; when no numeric token exists the result is "0".
The claim's universal quantification over "every adapter" fails: see the
counterexample on `RavenScans.parsear_numero_capitulo`, whose parser has
no "first" special case and recognizes only the prefixes chapter, ch.,
ch, cap., cap. -/
theorem C4_chapter_number_normalization (texto : String) :
    asuraParsearNumeroCapitulo texto =
      (if hasSub "first".toList (lowerL texto.toList) = true then "1"
       else
         match firstNum texto.toList with
         | some t => String.mk t
         | none => "0") := by
  unfold asuraParsearNumeroCapitulo
  by_cases h : hasSub "first".toList (lowerL texto.toList) = true
  · simp only [h, if_pos]
  · simp only [h, if_neg, Bool.not_eq_true]
    rw [firstNum_asuraStripHead, firstNum_lowerL]

/-- Claim C4 (counterexample): the claim asserts that any text
containing "first" is normalized to "1" by the parse operation of every
adapter, but `RavenScans.parsear_numero_capitulo` returns "0" for
"First Chapter". -/
theorem C4_counterexample_raven_first :
    ravenParsearNumeroCapitulo "First Chapter" = "0" ∧
      ravenParsearNumeroCapitulo "First Chapter" ≠ "1" := by
  constructor
  · decide
  · decide

/-! ## Claim C3: eligibility filter -/

/-- Claim C3 (amended): the set of mappings a tracking job processes is
exactly the mappings whose manually-verified flag is true, narrowed by
the optional target-id and site-id filters when they are supplied (and
nonzero, per Python truthiness); the query applies no site-activity
condition — the Scanlator model has no activity flag and mappings are
selected regardless of any notion of an inactive site. -/
theorem C3_eligibility_filter (table : List Mapping) (mi si : Option Nat) (m : Mapping) :
    m ∈ eligibleMappings table mi si ↔
      m ∈ table ∧ m.manuallyVerified = true ∧
        (truthyId mi = true → m.mangaId = mi.getD 0) ∧
        (truthyId si = true → m.scanlatorId = si.getD 0) := by
  unfold eligibleMappings
  by_cases h1 : truthyId mi = true <;> by_cases h2 : truthyId si = true <;>
    simp [h1, h2, List.mem_filter, and_assoc] <;> tauto

/-- Claim C3 (witness): a verified mapping with matching filter ids is
eligible. -/
theorem C3_witness :
    (⟨1, 2, 3, true, "u", "t", "s"⟩ : Mapping) ∈
      eligibleMappings [⟨1, 2, 3, true, "u", "t", "s"⟩] (some 2) (some 3) :=
  (C3_eligibility_filter [⟨1, 2, 3, true, "u", "t", "s"⟩] (some 2) (some 3)
      ⟨1, 2, 3, true, "u", "t", "s"⟩).mpr
    ⟨by decide, by decide, fun _ => by decide, fun _ => by decide⟩

/-- Claim C3 (counterexample): the claim requires mappings on inactive
sites to be excluded, but the query has no activity condition: with
every site inactive, the spec-side eligible set is empty while the code
still selects (and hence processes) the verified mapping. -/
theorem C3_counterexample_inactive_site :
    eligibleMappings [⟨1, 1, 1, true, "u", "t", "s"⟩] none none ≠
        specEligibleMappings (fun _ => false) [⟨1, 1, 1, true, "u", "t", "s"⟩] none none ∧
      (⟨1, 1, 1, true, "u", "t", "s"⟩ : Mapping) ∈
        eligibleMappings [⟨1, 1, 1, true, "u", "t", "s"⟩] none none := by
  constructor
  · decide
  · decide

/-! ## Claim C8: job lifecycle -/

theorem lookupJob_eq_none {jobs : List (String × JobState)} {jid : String}
    (h : ∀ p ∈ jobs, p.1 ≠ jid) : lookupJob jobs jid = none := by
  induction jobs with
  | nil => rfl
  | cons p rest ih =>
    obtain ⟨k, v⟩ := p
    unfold lookupJob
    rw [if_neg (h (k, v) (by simp))]
    exact ih (fun q hq => h q (by simp [hq]))

/-- Claim C8 (amended): `get_status` for an unknown job id returns the
not-found signal; over any run, the sequence of status values is one of
pending → running → completed, pending → running → failed, or
pending → running → completed → failed, and the last shape — a
regression from the terminal status completed to failed — occurs exactly
on the path where notification was requested, new chapters were found
and the notifier call raises (refuting the claim's assertion that a
notifier failure cannot change the terminal status). -/
theorem C8_job_lifecycle :
    (∀ (jobs : List (String × JobState)) (jid : String),
        (∀ p ∈ jobs, p.1 ≠ jid) → getJobStatus jobs jid = none) ∧
    (∀ (cfg : RunConfig) (jid : String),
        (runTrackingJob cfg jid).statusTrace = [.pending, .running, .completed] ∨
        (runTrackingJob cfg jid).statusTrace = [.pending, .running, .failed] ∨
        (runTrackingJob cfg jid).statusTrace =
          [.pending, .running, .completed, .failed]) ∧
    (∀ (cfg : RunConfig) (jid : String),
        (runTrackingJob cfg jid).statusTrace =
            [.pending, .running, .completed, .failed] →
          cfg.notify = true ∧ (runTrackingJob cfg jid).job.newChaptersFound > 0 ∧
            cfg.notifierErr ≠ none) := by
  refine ⟨fun jobs jid h => lookupJob_eq_none h, fun cfg jid => ?_, fun cfg jid => ?_⟩
  · unfold runTrackingJob
    cases hs : cfg.setupErr with
    | some msg => exact Or.inr (Or.inl rfl)
    | none =>
      cases hl : runMappingLoop cfg.now cfg.adapter
          (eligibleMappings cfg.table cfg.mangaId cfg.scanlatorId) cfg.db
          { initJob jid with
            status := .running, startedAt := some cfg.now,
            totalMappings :=
              (eligibleMappings cfg.table cfg.mangaId cfg.scanlatorId).length } with
      | mk db1 job3 =>
        cases hn : cfg.notifierErr with
        | none => exact Or.inl rfl
        | some msg =>
          by_cases hb : (cfg.notify && job3.newChaptersFound > 0) = true
          · simp only [hl, hb]
            exact Or.inr (Or.inr rfl)
          · simp only [hl, hb]
            exact Or.inl rfl
  · unfold runTrackingJob
    cases hs : cfg.setupErr with
    | some msg =>
      intro h
      have h2 : ([.pending, .running, .failed] : List JobStatus) =
          [.pending, .running, .completed, .failed] := h
      exact absurd h2 (by decide)
    | none =>
      cases hl : runMappingLoop cfg.now cfg.adapter
          (eligibleMappings cfg.table cfg.mangaId cfg.scanlatorId) cfg.db
          { initJob jid with
            status := .running, startedAt := some cfg.now,
            totalMappings :=
              (eligibleMappings cfg.table cfg.mangaId cfg.scanlatorId).length } with
      | mk db1 job3 =>
        cases hn : cfg.notifierErr with
        | none =>
          intro h
          have h2 : ([.pending, .running, .completed] : List JobStatus) =
              [.pending, .running, .completed, .failed] := h
          exact absurd h2 (by decide)
        | some msg =>
          by_cases hb : (cfg.notify && job3.newChaptersFound > 0) = true
          · intro _
            have hb2 := hb
            simp only [Bool.and_eq_true, decide_eq_true_eq] at hb2
            refine ⟨hb2.1, ?_, by simp⟩
            simp only [hl, hb]
            exact hb2.2
          · intro h
            simp only [hl, if_neg hb] at h
            have h2 : ([.pending, .running, .completed] : List JobStatus) =
                [.pending, .running, .completed, .failed] := h
            exact absurd h2 (by decide)

/-- Claim C8 (counterexample): with notification requested, one new
chapter found and a failing notifier, the status trajectory is
pending, running, completed, failed — the job is observed 'completed'
and later 'failed', refuting "once a job reads completed it never later
reads failed, even when the notifier invocation fails". -/
theorem C8_counterexample_notifier_failure :
    (runTrackingJob
        { table := [⟨1, 1, 1, true, "u", "t", "s"⟩], mangaId := none,
          scanlatorId := none, notify := true,
          adapter := fun _ => .ok [⟨"1", none, "url", none⟩],
          setupErr := none, notifierErr := some "boom", db := [], now := 0 }
        "job1").statusTrace = [.pending, .running, .completed, .failed] := by
  decide

/-! ## Claim C10: job listing order -/

/-- Claim C10: `list_jobs(limit)` returns at most `limit` summaries,
sorted by start time descending with a missing start time keyed at the
minimum value (`datetime.min`); consequently, when every actually
started job has a positive timestamp, the not-yet-started jobs form a
suffix of the listing — they appear last, not first. -/
theorem C10_list_jobs_order (jobs : List JobState) (limit : Nat) :
    (listJobs jobs limit).length ≤ limit ∧
      List.Pairwise (fun a b => b.startedAt.getD dtMin ≤ a.startedAt.getD dtMin)
        (listJobs jobs limit) ∧
      ((∀ j ∈ jobs, ∀ t : Int, j.startedAt = some t → 0 < t) →
        List.Pairwise (fun a b => a.startedAt = none → b.startedAt = none)
          (listJobs jobs limit)) := by
  unfold listJobs
  refine ⟨?_, ?_, ?_⟩
  · rw [List.length_map, List.length_take]
    exact Nat.min_le_left _ _
  · rw [List.pairwise_map]
    exact List.Pairwise.sublist (List.take_sublist _ _)
      (List.sorted_insertionSort jobDesc jobs)
  · intro hpos
    rw [List.pairwise_map]
    refine List.Pairwise.imp_of_mem ?_
      (List.Pairwise.sublist (List.take_sublist _ _)
        (List.sorted_insertionSort jobDesc jobs))
    intro a b ha hb hr hnone
    cases hbt : b.startedAt with
    | none => rfl
    | some t =>
      exfalso
      have hmem : b ∈ List.insertionSort jobDesc jobs :=
        (List.take_sublist _ _).subset hb
      have hmem2 : b ∈ jobs := (List.perm_insertionSort jobDesc jobs).subset hmem
      have ht := hpos b hmem2 t hbt
      have hnone2 : a.startedAt = none := hnone
      unfold jobDesc listKey at hr
      rw [hnone2, hbt] at hr
      simp [dtMin] at hr
      omega

/-- Claim C8 (witness): a lookup for an id absent from the registry
returns the not-found signal. -/
theorem C8_witness : getJobStatus [("a", initJob "a")] "zzz" = none :=
  C8_job_lifecycle.1 [("a", initJob "a")] "zzz" (by decide)

/-- Claim C10 (witness): with one pending and one started job, the
pending-jobs-last property holds for the listing. -/
theorem C10_witness :
    List.Pairwise (fun a b => a.startedAt = none → b.startedAt = none)
      (listJobs [initJob "a", { initJob "b" with startedAt := some 5 }] 2) :=
  (C10_list_jobs_order [initJob "a", { initJob "b" with startedAt := some 5 }] 2).2.2
    (by
      intro j hj t ht
      simp only [List.mem_cons, List.mem_singleton, List.not_mem_nil] at hj
      rcases hj with rfl | rfl | hj
      · simp [initJob] at ht
      · simp [initJob] at ht
        omega
      · exact absurd hj (by simp))

/-! ## Lemmas on the chapter-insertion loop (claims C1, C2, C9) -/

theorem chapterExists_of_mem {db : List ChapterRow} {r : ChapterRow} {msId : Nat}
    {num : String} (h : r ∈ db) (h1 : r.mangaScanlatorId = msId)
    (h2 : r.chapterNumber = num) : chapterExists db msId num = true := by
  unfold chapterExists
  rw [List.any_eq_true]
  exact ⟨r, h, by simp [h1, h2]⟩

theorem chapterExists_append (db : List ChapterRow) (r : ChapterRow) (msId : Nat)
    (num : String) :
    chapterExists (db ++ [r]) msId num =
      (chapterExists db msId num ||
        (r.mangaScanlatorId == msId && r.chapterNumber == num)) := by
  simp [chapterExists, List.any_append]

theorem processChapters_mono (now : Int) (m : Mapping) (cs : List RawChapter) :
    ∀ (db : List ChapterRow) (job : JobState) (r : ChapterRow),
      r ∈ db → r ∈ (processChapters now m cs db job).1 := by
  induction cs with
  | nil =>
    intro db job r h
    exact h
  | cons c cs ih =>
    intro db job r h
    unfold processChapters
    split
    · exact ih _ _ r h
    · exact ih _ _ r (List.mem_append_left _ h)

theorem chapterExists_processChapters_mono (now : Int) (m : Mapping)
    (cs : List RawChapter) (db : List ChapterRow) (job : JobState) (msId : Nat)
    (num : String) (h : chapterExists db msId num = true) :
    chapterExists (processChapters now m cs db job).1 msId num = true := by
  unfold chapterExists at h
  rw [List.any_eq_true] at h
  obtain ⟨r, hr, hp⟩ := h
  simp only [Bool.and_eq_true, beq_iff_eq] at hp
  exact chapterExists_of_mem (processChapters_mono now m cs db job r hr) hp.1 hp.2

theorem processChapters_covers (now : Int) (m : Mapping) (cs : List RawChapter) :
    ∀ (db : List ChapterRow) (job : JobState) (c : RawChapter), c ∈ cs →
      chapterExists (processChapters now m cs db job).1 m.id c.numero = true := by
  induction cs with
  | nil =>
    intro db job c h
    exact absurd h (by simp)
  | cons c0 cs ih =>
    intro db job c h
    rcases List.mem_cons.mp h with rfl | hmem
    · unfold processChapters
      split
      · next hex =>
        exact chapterExists_processChapters_mono now m cs db job m.id c.numero hex
      · apply chapterExists_processChapters_mono
        rw [chapterExists_append]
        simp [mkChapterRow]
    · unfold processChapters
      split
      · exact ih _ _ c hmem
      · exact ih _ _ c hmem

theorem processChapters_errors (now : Int) (m : Mapping) (cs : List RawChapter) :
    ∀ (db : List ChapterRow) (job : JobState),
      (processChapters now m cs db job).2.errors = job.errors := by
  induction cs with
  | nil =>
    intro db job
    rfl
  | cons c cs ih =>
    intro db job
    unfold processChapters
    split
    · exact ih _ _
    · exact ih _ _

theorem processChapters_processed (now : Int) (m : Mapping) (cs : List RawChapter) :
    ∀ (db : List ChapterRow) (job : JobState),
      (processChapters now m cs db job).2.processedMappings = job.processedMappings := by
  induction cs with
  | nil =>
    intro db job
    rfl
  | cons c cs ih =>
    intro db job
    unfold processChapters
    split
    · exact ih _ _
    · exact ih _ _

theorem processChapters_status (now : Int) (m : Mapping) (cs : List RawChapter) :
    ∀ (db : List ChapterRow) (job : JobState),
      (processChapters now m cs db job).2.status = job.status := by
  induction cs with
  | nil =>
    intro db job
    rfl
  | cons c cs ih =>
    intro db job
    unfold processChapters
    split
    · exact ih _ _
    · exact ih _ _

theorem processChapters_total (now : Int) (m : Mapping) (cs : List RawChapter) :
    ∀ (db : List ChapterRow) (job : JobState),
      (processChapters now m cs db job).2.totalMappings = job.totalMappings := by
  induction cs with
  | nil =>
    intro db job
    rfl
  | cons c cs ih =>
    intro db job
    unfold processChapters
    split
    · exact ih _ _
    · exact ih _ _

theorem processChapters_inv (now : Int) (m : Mapping) (cs : List RawChapter) :
    ∀ (db : List ChapterRow) (job : JobState), uniqueChapterInv db →
      uniqueChapterInv (processChapters now m cs db job).1 := by
  induction cs with
  | nil =>
    intro db job h
    exact h
  | cons c cs ih =>
    intro db job h
    unfold processChapters
    split
    · exact ih _ _ h
    · next hnex =>
      apply ih
      unfold uniqueChapterInv at h ⊢
      rw [List.pairwise_append]
      refine ⟨h, by simp, ?_⟩
      intro a ha b hb
      simp only [List.mem_singleton] at hb
      subst hb
      rintro ⟨he1, he2⟩
      exact hnex (chapterExists_of_mem ha (by simpa [mkChapterRow] using he1)
        (by simpa [mkChapterRow] using he2))

theorem processChapters_fresh (now : Int) (m : Mapping) (cs : List RawChapter) :
    ∀ (db : List ChapterRow) (job : JobState),
      (cs.map RawChapter.numero).Nodup →
      (∀ c ∈ cs, chapterExists db m.id c.numero = false) →
      processChapters now m cs db job =
        (db ++ cs.map (mkChapterRow now m),
         { job with
           newChaptersFound := job.newChaptersFound + cs.length,
           chaptersData := job.chaptersData ++ cs.map (mkNotifChapter now m) }) := by
  induction cs with
  | nil =>
    intro db job _ _
    simp [processChapters]
  | cons c cs ih =>
    intro db job hnodup hfresh
    rw [List.map_cons, List.nodup_cons] at hnodup
    have hfc : chapterExists db m.id c.numero = false := hfresh c (by simp)
    unfold processChapters
    simp only [hfc, Bool.false_eq_true, if_false]
    have hfresh2 : ∀ c2 ∈ cs,
        chapterExists (db ++ [mkChapterRow now m c]) m.id c2.numero = false := by
      intro c2 hc2
      rw [chapterExists_append]
      have hd : c.numero ≠ c2.numero := by
        intro he
        exact hnodup.1 (he ▸ List.mem_map_of_mem RawChapter.numero hc2)
      simp [hfresh c2 (by simp [hc2]), mkChapterRow, hd]
    rw [ih _ _ hnodup.2 hfresh2]
    have harith : job.newChaptersFound + 1 + cs.length =
        job.newChaptersFound + (cs.length + 1) := by omega
    refine Prod.ext ?_ ?_
    · simp
    · simp [JobState.mk.injEq, harith]

theorem processChapters_noop (now : Int) (m : Mapping) (cs : List RawChapter) :
    ∀ (db : List ChapterRow) (job : JobState),
      (∀ c ∈ cs, chapterExists db m.id c.numero = true) →
      processChapters now m cs db job = (db, job) := by
  induction cs with
  | nil =>
    intro db job _
    rfl
  | cons c cs ih =>
    intro db job h
    unfold processChapters
    simp only [h c (by simp), if_true]
    exact ih _ _ (fun c2 hc2 => h c2 (by simp [hc2]))

/-! ## Reduction lemmas for the mapping loop and the job runner -/

theorem runMappingLoop_cons_ok (now : Int) (adapter : Mapping → FetchOutcome)
    (m : Mapping) (ms : List Mapping) (db : List ChapterRow) (job : JobState)
    (cs : List RawChapter) (h : adapter m = .ok cs) :
    runMappingLoop now adapter (m :: ms) db job =
      runMappingLoop now adapter ms (processChapters now m cs db job).1
        { (processChapters now m cs db job).2 with
          processedMappings :=
            (processChapters now m cs db job).2.processedMappings + 1 } := by
  show runMappingLoop now adapter ms (applyOutcome now m (adapter m) db job).1
      (applyOutcome now m (adapter m) db job).2 = _
  rw [h]
  rfl

theorem runMappingLoop_cons_fail (now : Int) (adapter : Mapping → FetchOutcome)
    (m : Mapping) (ms : List Mapping) (db : List ChapterRow) (job : JobState)
    (k : Nat) (msg : String) (cs : List RawChapter)
    (h : adapter m = .failAfter k msg cs) :
    runMappingLoop now adapter (m :: ms) db job =
      runMappingLoop now adapter ms (processChapters now m (cs.take k) db job).1
        { (processChapters now m (cs.take k) db job).2 with
          errors := (processChapters now m (cs.take k) db job).2.errors ++
            [errorMsgFor m.id msg] } := by
  show runMappingLoop now adapter ms (applyOutcome now m (adapter m) db job).1
      (applyOutcome now m (adapter m) db job).2 = _
  rw [h]
  rfl

theorem runTrackingJob_no_notify (cfg : RunConfig) (jid : String)
    (hsetup : cfg.setupErr = none) (hnotify : cfg.notify = false) :
    runTrackingJob cfg jid =
      { job := { (runMappingLoop cfg.now cfg.adapter
            (eligibleMappings cfg.table cfg.mangaId cfg.scanlatorId) cfg.db
            { initJob jid with
              status := .running, startedAt := some cfg.now,
              totalMappings :=
                (eligibleMappings cfg.table cfg.mangaId cfg.scanlatorId).length }).2 with
          status := .completed, completedAt := some cfg.now },
        db := (runMappingLoop cfg.now cfg.adapter
            (eligibleMappings cfg.table cfg.mangaId cfg.scanlatorId) cfg.db
            { initJob jid with
              status := .running, startedAt := some cfg.now,
              totalMappings :=
                (eligibleMappings cfg.table cfg.mangaId cfg.scanlatorId).length }).1,
        statusTrace := [.pending, .running, .completed] } := by
  unfold runTrackingJob
  rw [hsetup]
  cases hn : cfg.notifierErr with
  | none => rfl
  | some msg => simp [hnotify]

/-! ## Claim C1: idempotence of the tracking flow -/

/-- Claim C1: with a fixed adapter response of K chapters (pairwise
distinct numbers) for one verified mapping, none of which is present
initially, the first run inserts exactly K Chapter Records and sets the
new-chapter counter to K; a second run over the resulting table inserts
nothing (the table is unchanged and the counter stays 0); the
(mapping, chapter number) uniqueness invariant holds before (hypothesis)
and after both runs. -/
theorem C1_tracking_idempotent (cfg1 cfg2 : RunConfig) (jid1 jid2 : String)
    (m : Mapping) (cs : List RawChapter)
    (htab : cfg1.table = [m]) (hmi : cfg1.mangaId = none)
    (hsi : cfg1.scanlatorId = none) (hno : cfg1.notify = false)
    (hsetup : cfg1.setupErr = none) (hadapter : cfg1.adapter m = .ok cs)
    (hver : m.manuallyVerified = true)
    (hnodup : (cs.map RawChapter.numero).Nodup)
    (hfresh : ∀ c ∈ cs, chapterExists cfg1.db m.id c.numero = false)
    (hinv : uniqueChapterInv cfg1.db)
    (hcfg2 : cfg2 = { cfg1 with db := (runTrackingJob cfg1 jid1).db }) :
    (runTrackingJob cfg1 jid1).db.length = cfg1.db.length + cs.length ∧
      (runTrackingJob cfg1 jid1).job.newChaptersFound = cs.length ∧
      (runTrackingJob cfg2 jid2).db = (runTrackingJob cfg1 jid1).db ∧
      (runTrackingJob cfg2 jid2).job.newChaptersFound = 0 ∧
      uniqueChapterInv (runTrackingJob cfg1 jid1).db ∧
      uniqueChapterInv (runTrackingJob cfg2 jid2).db := by
  have helig : eligibleMappings cfg1.table cfg1.mangaId cfg1.scanlatorId = [m] := by
    rw [htab, hmi, hsi]
    simp [eligibleMappings, truthyId, hver]
  have hdb1 : (runTrackingJob cfg1 jid1).db =
      cfg1.db ++ cs.map (mkChapterRow cfg1.now m) := by
    rw [runTrackingJob_no_notify cfg1 jid1 hsetup hno, helig,
      runMappingLoop_cons_ok _ _ _ _ _ _ _ hadapter,
      processChapters_fresh cfg1.now m cs cfg1.db _ hnodup hfresh]
    rfl
  have hcount1 : (runTrackingJob cfg1 jid1).job.newChaptersFound = cs.length := by
    rw [runTrackingJob_no_notify cfg1 jid1 hsetup hno, helig,
      runMappingLoop_cons_ok _ _ _ _ _ _ _ hadapter,
      processChapters_fresh cfg1.now m cs cfg1.db _ hnodup hfresh]
    simp [runMappingLoop, initJob]
  have hinv1 : uniqueChapterInv (runTrackingJob cfg1 jid1).db := by
    rw [runTrackingJob_no_notify cfg1 jid1 hsetup hno, helig,
      runMappingLoop_cons_ok _ _ _ _ _ _ _ hadapter]
    exact processChapters_inv cfg1.now m cs cfg1.db _ hinv
  have htab2 : cfg2.table = [m] := by
    rw [hcfg2]
    exact htab
  have hmi2 : cfg2.mangaId = none := by
    rw [hcfg2]
    exact hmi
  have hsi2 : cfg2.scanlatorId = none := by
    rw [hcfg2]
    exact hsi
  have hno2 : cfg2.notify = false := by
    rw [hcfg2]
    exact hno
  have hsetup2 : cfg2.setupErr = none := by
    rw [hcfg2]
    exact hsetup
  have hadapter2 : cfg2.adapter m = .ok cs := by
    rw [hcfg2]
    exact hadapter
  have hdbval2 : cfg2.db = (runTrackingJob cfg1 jid1).db := by
    rw [hcfg2]
  have helig2 : eligibleMappings cfg2.table cfg2.mangaId cfg2.scanlatorId = [m] := by
    rw [htab2, hmi2, hsi2]
    simp [eligibleMappings, truthyId, hver]
  have hfresh2 : ∀ c ∈ cs, chapterExists cfg2.db m.id c.numero = true := by
    intro c hc
    rw [hdbval2, hdb1]
    exact @chapterExists_of_mem _ (mkChapterRow cfg1.now m c) _ _
      (List.mem_append_right _ (List.mem_map_of_mem _ hc)) rfl rfl
  have hdb2 : (runTrackingJob cfg2 jid2).db = cfg2.db := by
    rw [runTrackingJob_no_notify cfg2 jid2 hsetup2 hno2, helig2,
      runMappingLoop_cons_ok _ _ _ _ _ _ _ hadapter2,
      processChapters_noop cfg2.now m cs cfg2.db _ hfresh2]
    rfl
  have hcount2 : (runTrackingJob cfg2 jid2).job.newChaptersFound = 0 := by
    rw [runTrackingJob_no_notify cfg2 jid2 hsetup2 hno2, helig2,
      runMappingLoop_cons_ok _ _ _ _ _ _ _ hadapter2,
      processChapters_noop cfg2.now m cs cfg2.db _ hfresh2]
    rfl
  refine ⟨?_, hcount1, ?_, hcount2, hinv1, ?_⟩
  · rw [hdb1]
    simp
  · rw [hdb2, hdbval2]
  · rw [hdb2, hdbval2]
    exact hinv1

/-- Claim C1 (witness): one fresh chapter for a verified mapping over an
empty table is inserted by the first run. -/
theorem C1_witness :
    (runTrackingJob
        { table := [⟨1, 1, 1, true, "u", "t", "s"⟩], mangaId := none,
          scanlatorId := none, notify := false,
          adapter := fun _ => .ok [⟨"7", none, "u7", none⟩],
          setupErr := none, notifierErr := none, db := [], now := 0 }
        "j1").db.length = 1 :=
  (C1_tracking_idempotent _ _ "j1" "j2" ⟨1, 1, 1, true, "u", "t", "s"⟩
    [⟨"7", none, "u7", none⟩] rfl rfl rfl rfl rfl rfl rfl (by decide) (by decide)
    (by
      unfold uniqueChapterInv
      exact List.Pairwise.nil) rfl).1

/-! ## Claim C2: failure isolation -/

/-- Claim C2 (amended): over three verified mappings where the second
adapter invocation raises, the job still processes the third mapping
(its chapters end up in the table), appends exactly one error string for
the second mapping to the job's in-memory error list (no Scraping Error
Record is persisted — the tracker never writes to that table), and
terminates with status completed, total_mappings = 3 and
processed_mappings = 2: the processed counter counts only successfully
processed mappings, so it is 2, not 3 as the claim states. -/
theorem C2_failure_isolation (cfg : RunConfig) (jid : String)
    (m1 m2 m3 : Mapping) (cs1 cs2 cs3 : List RawChapter) (msg : String)
    (htab : cfg.table = [m1, m2, m3]) (hmi : cfg.mangaId = none)
    (hsi : cfg.scanlatorId = none) (hno : cfg.notify = false)
    (hsetup : cfg.setupErr = none)
    (h1 : m1.manuallyVerified = true) (h2 : m2.manuallyVerified = true)
    (h3 : m3.manuallyVerified = true)
    (ha1 : cfg.adapter m1 = .ok cs1)
    (ha2 : cfg.adapter m2 = .failAfter 0 msg cs2)
    (ha3 : cfg.adapter m3 = .ok cs3) :
    (runTrackingJob cfg jid).job.status = .completed ∧
      (runTrackingJob cfg jid).job.totalMappings = 3 ∧
      (runTrackingJob cfg jid).job.processedMappings = 2 ∧
      (runTrackingJob cfg jid).job.errors = [errorMsgFor m2.id msg] ∧
      (∀ c ∈ cs3, chapterExists (runTrackingJob cfg jid).db m3.id c.numero = true) := by
  have helig : eligibleMappings cfg.table cfg.mangaId cfg.scanlatorId =
      [m1, m2, m3] := by
    rw [htab, hmi, hsi]
    simp [eligibleMappings, truthyId, h1, h2, h3]
  rw [runTrackingJob_no_notify cfg jid hsetup hno, helig,
    runMappingLoop_cons_ok _ _ _ _ _ _ _ ha1,
    runMappingLoop_cons_fail _ _ _ _ _ _ _ _ _ ha2,
    runMappingLoop_cons_ok _ _ _ _ _ _ _ ha3]
  refine ⟨rfl, ?_, ?_, ?_, ?_⟩
  · simp [runMappingLoop, processChapters_total, initJob]
  · simp [runMappingLoop, processChapters_processed, initJob]
  · simp [runMappingLoop, processChapters_errors, initJob]
  · intro c hc
    exact processChapters_covers cfg.now m3 cs3 _ _ c hc

/-- Claim C2 (witness): the amended behavior at a concrete run — one
error string recorded for the failing second mapping. -/
theorem C2_witness :
    (runTrackingJob
        { table := [⟨1, 1, 1, true, "u", "t", "s"⟩, ⟨2, 2, 2, true, "u", "t", "s"⟩,
            ⟨3, 3, 3, true, "u", "t", "s"⟩],
          mangaId := none, scanlatorId := none, notify := false,
          adapter := fun mp =>
            if mp.id = 2 then .failAfter 0 "boom" []
            else .ok [⟨"1", none, "u1", none⟩],
          setupErr := none, notifierErr := none, db := [], now := 0 }
        "j").job.errors = [errorMsgFor 2 "boom"] :=
  (C2_failure_isolation _ "j" ⟨1, 1, 1, true, "u", "t", "s"⟩
    ⟨2, 2, 2, true, "u", "t", "s"⟩ ⟨3, 3, 3, true, "u", "t", "s"⟩
    [⟨"1", none, "u1", none⟩] [] [⟨"1", none, "u1", none⟩] "boom"
    rfl rfl rfl rfl rfl rfl rfl rfl (by decide) (by decide) (by decide)).2.2.2.1

/-- Claim C2 (counterexample): in the three-mapping scenario with the
second raising, processed_mappings of the completed job is 2, not 3 as
the claim asserts. -/
theorem C2_counterexample_processed_count :
    (runTrackingJob
        { table := [⟨1, 1, 1, true, "u", "t", "s"⟩, ⟨2, 2, 2, true, "u", "t", "s"⟩,
            ⟨3, 3, 3, true, "u", "t", "s"⟩],
          mangaId := none, scanlatorId := none, notify := false,
          adapter := fun mp =>
            if mp.id = 2 then .failAfter 0 "boom" []
            else .ok [⟨"1", none, "u1", none⟩],
          setupErr := none, notifierErr := none, db := [], now := 0 }
        "j").job.processedMappings = 2 ∧
      (runTrackingJob
        { table := [⟨1, 1, 1, true, "u", "t", "s"⟩, ⟨2, 2, 2, true, "u", "t", "s"⟩,
            ⟨3, 3, 3, true, "u", "t", "s"⟩],
          mangaId := none, scanlatorId := none, notify := false,
          adapter := fun mp =>
            if mp.id = 2 then .failAfter 0 "boom" []
            else .ok [⟨"1", none, "u1", none⟩],
          setupErr := none, notifierErr := none, db := [], now := 0 }
        "j").job.processedMappings ≠ 3 := by
  constructor
  · decide
  · decide

/-! ## Claim C9: per-chapter commit, no rollback -/

/-- Claim C9: each newly detected chapter is committed individually as
found; when processing a mapping raises after the first k chapters,
every chapter handled before the failure is present in the final table,
nothing previously persisted is removed (the mapping-boundary handler
rolls nothing back — it only appends the error string), and the job
still completes with the mapping not counted as processed. -/
theorem C9_per_chapter_commit (cfg : RunConfig) (jid : String) (m : Mapping)
    (k : Nat) (msg : String) (cs : List RawChapter)
    (htab : cfg.table = [m]) (hmi : cfg.mangaId = none)
    (hsi : cfg.scanlatorId = none) (hno : cfg.notify = false)
    (hsetup : cfg.setupErr = none)
    (hadapter : cfg.adapter m = .failAfter k msg cs)
    (hver : m.manuallyVerified = true) :
    (∀ c ∈ cs.take k, chapterExists (runTrackingJob cfg jid).db m.id c.numero = true) ∧
      (∀ r ∈ cfg.db, r ∈ (runTrackingJob cfg jid).db) ∧
      (runTrackingJob cfg jid).job.errors = [errorMsgFor m.id msg] ∧
      (runTrackingJob cfg jid).job.status = .completed ∧
      (runTrackingJob cfg jid).job.processedMappings = 0 := by
  have helig : eligibleMappings cfg.table cfg.mangaId cfg.scanlatorId = [m] := by
    rw [htab, hmi, hsi]
    simp [eligibleMappings, truthyId, hver]
  rw [runTrackingJob_no_notify cfg jid hsetup hno, helig,
    runMappingLoop_cons_fail _ _ _ _ _ _ _ _ _ hadapter]
  refine ⟨?_, ?_, ?_, rfl, ?_⟩
  · intro c hc
    exact processChapters_covers cfg.now m (cs.take k) _ _ c hc
  · intro r hr
    exact processChapters_mono cfg.now m (cs.take k) _ _ r hr
  · simp [runMappingLoop, processChapters_errors, initJob]
  · simp [runMappingLoop, processChapters_processed, initJob]

/-- Claim C9 (witness): a failure after the first of two chapters leaves
that first chapter persisted. -/
theorem C9_witness :
    chapterExists
      (runTrackingJob
        { table := [⟨1, 1, 1, true, "u", "t", "s"⟩], mangaId := none,
          scanlatorId := none, notify := false,
          adapter := fun _ =>
            .failAfter 1 "boom" [⟨"1", none, "u1", none⟩, ⟨"2", none, "u2", none⟩],
          setupErr := none, notifierErr := none, db := [], now := 0 }
        "j").db 1 "1" = true :=
  (C9_per_chapter_commit _ "j" ⟨1, 1, 1, true, "u", "t", "s"⟩ 1 "boom"
    [⟨"1", none, "u1", none⟩, ⟨"2", none, "u2", none⟩]
    rfl rfl rfl rfl rfl rfl rfl).1 ⟨"1", none, "u1", none⟩ (by decide)

example : asuraParsearNumeroCapitulo "Chapter 100: The Final Battle" = "100" := by decide
example : asuraParsearNumeroCapitulo "Ch. 42.5" = "42.5" := by decide
example : asuraParsearNumeroCapitulo "Episode 5" = "5" := by decide
example : asuraParsearNumeroCapitulo "First Chapter" = "1" := by decide
example : asuraParsearNumeroCapitulo "???" = "0" := by decide
example : ravenParsearNumeroCapitulo "Chapter 147" = "147" := by decide
example : ravenParsearNumeroCapitulo "Ch. 42.5" = "42.5" := by decide
example : ravenParsearNumeroCapitulo "First Chapter" = "0" := by decide
example : asuraParseDate 1000000 "" = 1000000 := by decide
example : asuraParseDate 1000000 "2 days ago" = 1000000 - 172800 := by decide
example : asuraParseDate 1000000 "Yesterday" = 1000000 - 86400 := by decide
example : asuraParseDate 1000000 "garbage" = 1000000 := by decide
example : asuraParseDate 0 "2026-01-15" = civilSeconds 2026 1 15 := by decide
example : asuraParseDate 0 "Jan 15, 2026" = civilSeconds 2026 1 15 := by decide
example : asuraParseDate 0 "Feb 30, 2026" = 0 := by decide

end Mangataro
